import Mathlib

/-!
# Task G form page (`index.js`): validators and submit handling

A shallow embedding of `src/index.js`.  JavaScript strings are sequences of
UTF-16 code units, so a string is a list of code units here; the built-ins the
script calls (`trim`, `split`, `replace`, `RegExp.prototype.test`, the `Date`
getters and `toISOString`) are modelled after ECMAScript, and the page (form
fields, error slots, timestamp field, table body) is an explicit state record.
What `new Date(value)` makes of a string is fixed by ECMAScript for the
date-time string format only, so the constructor is a parameter `newDate` of
`validateBirth` and of everything that calls it.
-/

namespace TaskG

/-! ## Strings -/

/-- A JavaScript string: the list of its UTF-16 code units. -/
abbrev JSString := List Nat

/-- UTF-16 code units of one Unicode scalar value. -/
def utf16 (c : Char) : List Nat :=
  if c.toNat < 0x10000 then [c.toNat]
  else [0xD800 + (c.toNat - 0x10000) / 0x400, 0xDC00 + (c.toNat - 0x10000) % 0x400]

/-- A string literal of the script as a JavaScript string. -/
def str (s : String) : JSString :=
  s.toList.flatMap utf16

/-- ECMAScript `WhiteSpace` and `LineTerminator` code units: what `trim` strips
and what `\s` matches. -/
def isWhiteSpace (c : Nat) : Bool :=
  c == 0x09 || c == 0x0A || c == 0x0B || c == 0x0C || c == 0x0D || c == 0x20 ||
  c == 0xA0 || c == 0x1680 || (0x2000 ≤ c && c ≤ 0x200A) ||
  c == 0x2028 || c == 0x2029 || c == 0x202F || c == 0x205F || c == 0x3000 ||
  c == 0xFEFF

/-- `String.prototype.trim`: strip white space from both ends. -/
def trim (s : JSString) : JSString :=
  ((s.dropWhile isWhiteSpace).reverse.dropWhile isWhiteSpace).reverse

/-- Scanning loop of `split(/\s+/)`: `cur` is the piece being read (reversed),
`inSep` tells whether the previous code unit belonged to a separator match. -/
def splitWhiteSpace.go (cur : JSString) (inSep : Bool) : JSString → List JSString
  | [] => [cur.reverse]
  | c :: rest =>
    if isWhiteSpace c then
      if inSep then splitWhiteSpace.go [] true rest
      else cur.reverse :: splitWhiteSpace.go [] true rest
    else splitWhiteSpace.go (c :: cur) false rest

/-- `s.split(/\s+/)`: the pieces of `s` between maximal runs of white space
(a leading or trailing run leaves an empty piece, as in JavaScript). -/
def splitWhiteSpace (s : JSString) : List JSString :=
  splitWhiteSpace.go [] false s

/-- `value.replace(/[...]/g, "")` for a one-code-unit class: every code unit of
the class is removed. -/
def removeClass (cls : Nat → Bool) (s : JSString) : JSString :=
  s.filter (fun c => !cls c)

/-! ## Regular expressions -/

/-- Pattern syntax used by the script's regular expressions. -/
inductive Regex where
  | never : Regex
  | empty : Regex
  | cls (p : Nat → Bool) : Regex
  | seq (a b : Regex) : Regex
  | alt (a b : Regex) : Regex
  | star (a : Regex) : Regex

namespace Regex

/-- Can the pattern match the empty string? -/
def nullable : Regex → Bool
  | never => false
  | empty => true
  | cls _ => false
  | seq a b => a.nullable && b.nullable
  | alt a b => a.nullable || b.nullable
  | star _ => true

/-- Brzozowski derivative: what remains to be matched after reading `c`. -/
def deriv (c : Nat) : Regex → Regex
  | never => never
  | empty => never
  | cls p => if p c then empty else never
  | seq a b => if a.nullable then alt (seq (a.deriv c) b) (b.deriv c) else seq (a.deriv c) b
  | alt a b => alt (a.deriv c) (b.deriv c)
  | star a => seq (a.deriv c) (star a)

/-- `/^r$/.test(s)`: does the whole of `s` match `r`? -/
def test (r : Regex) (s : JSString) : Bool :=
  (s.foldl (fun q c => q.deriv c) r).nullable

/-- A single code unit. -/
def chr (c : Char) : Regex := cls (fun x => x == c.toNat)

/-- The pattern `r+`. -/
def plus (r : Regex) : Regex := seq r (star r)

/-- The pattern `r?`. -/
def opt (r : Regex) : Regex := alt r empty

/-- The pattern `r{n}`. -/
def times : Nat → Regex → Regex
  | 0, _ => empty
  | n + 1, r => seq r (times n r)

/-- The pattern `r{0,n}`. -/
def upTo : Nat → Regex → Regex
  | 0, _ => empty
  | n + 1, r => opt (seq r (upTo n r))

/-- The pattern `r{m,}`. -/
def atLeast (m : Nat) (r : Regex) : Regex := seq (times m r) (star r)

/-- The pattern `r{m,n}` (with `m ≤ n`). -/
def between (m n : Nat) (r : Regex) : Regex := seq (times m r) (upTo (n - m) r)

end Regex

/-- The class `\d`. -/
def isDigit (c : Nat) : Bool := 0x30 ≤ c && c ≤ 0x39

/-- The class `[^@\s]`. -/
def notAtWs (c : Nat) : Bool := !(c == 0x40 || isWhiteSpace c)

/-- The class `[\s\-()]`. -/
def isPhoneFiller (c : Nat) : Bool :=
  isWhiteSpace c || c == 0x2D || c == 0x28 || c == 0x29

/-- Body of `/^[^@\s]+@[^@\s]+\.[^@\s]{2,}$/`. -/
def emailRe : Regex :=
  .seq (.plus (.cls notAtWs)) (.seq (.chr '@') (.seq (.plus (.cls notAtWs))
    (.seq (.chr '.') (.atLeast 2 (.cls notAtWs)))))

/-- Body of `/^\+358\d{6,12}$/`. -/
def intlPhoneRe : Regex :=
  .seq (.chr '+') (.seq (.chr '3') (.seq (.chr '5') (.seq (.chr '8')
    (.between 6 12 (.cls isDigit)))))

/-- Body of `/^0\d{5,12}$/`. -/
def localPhoneRe : Regex :=
  .seq (.chr '0') (.between 5 12 (.cls isDigit))

/-! ## Validation rules -/

def validateFullName (value : JSString) : JSString :=
  if trim value = [] then str "Please enter your full name." else
  let parts := splitWhiteSpace (trim value)
  if parts.length < 2 then str "Include both first and last name." else
  if parts.any (fun p => p.length < 2) then str "Each name must have at least 2 characters." else
  str ""

def validateEmail (value : JSString) : JSString :=
  if trim value = [] then str "Please enter your email." else
  if emailRe.test value then str "" else str "Please enter a valid email address."

def validatePhone (value : JSString) : JSString :=
  if trim value = [] then str "Please enter your phone number." else
  let digits := removeClass isPhoneFiller value
  if intlPhoneRe.test digits || localPhoneRe.test digits then str ""
  else str "Use Finnish format (+358… or 0…)."

def validateTerms (checked : Bool) : JSString :=
  if checked then str "" else str "You must accept the terms to continue."

/-! ## Dates

Time values are milliseconds since the epoch; a `Date` object holds a time
value or `NaN` (`none`).  The day and year arithmetic follows ECMAScript's
"Time Values and Time Range" definitions. -/

def msPerDay : Int := 86400000

/-- ECMAScript `Day(t)`. -/
def Day (t : Int) : Int := t / msPerDay

/-- ECMAScript `TimeWithinDay(t)`. -/
def TimeWithinDay (t : Int) : Int := t % msPerDay

/-- ECMAScript `DaysInYear(y)`. -/
def DaysInYear (y : Int) : Int :=
  if y % 4 ≠ 0 then 365 else if y % 100 ≠ 0 then 366 else if y % 400 ≠ 0 then 365 else 366

/-- ECMAScript `DayFromYear(y)`: day number of 1 January of year `y`. -/
def DayFromYear (y : Int) : Int :=
  365 * (y - 1970) + (y - 1969) / 4 - (y - 1901) / 100 + (y - 1601) / 400

/-- The year containing day number `d`: the largest `y` with
`DayFromYear y ≤ d`, found from the mean year length and adjusted by one. -/
def yearFromDay (d : Int) : Int :=
  let y := 1970 + d * 400 / 146097
  if d < DayFromYear y then y - 1 else if DayFromYear (y + 1) ≤ d then y + 1 else y

/-- ECMAScript `YearFromTime(t)`. -/
def YearFromTime (t : Int) : Int := yearFromDay (Day t)

/-- ECMAScript `InLeapYear(t)` (0 or 1). -/
def InLeapYear (t : Int) : Int :=
  if DaysInYear (YearFromTime t) = 366 then 1 else 0

/-- ECMAScript `DayWithinYear(t)`. -/
def DayWithinYear (t : Int) : Int := Day t - DayFromYear (YearFromTime t)

/-- ECMAScript `MonthFromTime(t)` (0 = January). -/
def MonthFromTime (t : Int) : Int :=
  let d := DayWithinYear t
  let l := InLeapYear t
  if d < 31 then 0 else if d < 59 + l then 1 else if d < 90 + l then 2
  else if d < 120 + l then 3 else if d < 151 + l then 4 else if d < 181 + l then 5
  else if d < 212 + l then 6 else if d < 243 + l then 7 else if d < 273 + l then 8
  else if d < 304 + l then 9 else if d < 334 + l then 10 else 11

/-- ECMAScript `DateFromTime(t)` (day of the month, from 1). -/
def DateFromTime (t : Int) : Int :=
  let d := DayWithinYear t
  let l := InLeapYear t
  match MonthFromTime t with
  | 0 => d + 1
  | 1 => d - 30
  | 2 => d - 58 - l
  | 3 => d - 89 - l
  | 4 => d - 119 - l
  | 5 => d - 150 - l
  | 6 => d - 180 - l
  | 7 => d - 211 - l
  | 8 => d - 242 - l
  | 9 => d - 272 - l
  | 10 => d - 303 - l
  | _ => d - 333 - l

def HourFromTime (t : Int) : Int := t / 3600000 % 24

def MinFromTime (t : Int) : Int := t / 60000 % 60

def SecFromTime (t : Int) : Int := t / 1000 % 60

def msFromTime (t : Int) : Int := t % 1000

/-- The local time zone: the offset from UTC, in milliseconds, in force at a
UTC time value. -/
abbrev TimeZone := Int → Int

/-- ECMAScript `LocalTime(t)`. -/
def LocalTime (tz : TimeZone) (t : Int) : Int := t + tz t

/-- A `Date` object: its time value, `none` for `NaN` (an invalid date). -/
abbrev Date := Option Int

/-- A JavaScript number as the script uses it: an integer, or `none` for `NaN`. -/
abbrev Num := Option Int

def getFullYear (tz : TimeZone) (d : Date) : Num :=
  d.map (fun t => YearFromTime (LocalTime tz t))

def getMonth (tz : TimeZone) (d : Date) : Num :=
  d.map (fun t => MonthFromTime (LocalTime tz t))

def getDate (tz : TimeZone) (d : Date) : Num :=
  d.map (fun t => DateFromTime (LocalTime tz t))

/-- Subtraction of numbers; `NaN` propagates. -/
def Num.sub : Num → Num → Num
  | some a, some b => some (a - b)
  | _, _ => none

/-- The comparison `a < b`: false when either side is `NaN`. -/
def Num.lt : Num → Num → Bool
  | some a, some b => decide (a < b)
  | _, _ => false

/-- The comparison `a === b`: false when either side is `NaN`. -/
def Num.eq : Num → Num → Bool
  | some a, some b => decide (a = b)
  | _, _ => false

/-- Value of a run of decimal digits, `none` if a code unit is not a digit. -/
def digitsValue (s : JSString) : Option Nat :=
  s.foldl (fun acc c => acc.bind (fun n => if isDigit c then some (10 * n + (c - 0x30)) else none))
    (some 0)

/-- Days of the year before the first of month `m` (1 = January). -/
def daysBeforeMonth (y : Int) (m : Nat) : Int :=
  let l : Int := if DaysInYear y = 366 then 1 else 0
  match m with
  | 1 => 0
  | 2 => 31
  | 3 => 59 + l
  | 4 => 90 + l
  | 5 => 120 + l
  | 6 => 151 + l
  | 7 => 181 + l
  | 8 => 212 + l
  | 9 => 243 + l
  | 10 => 273 + l
  | 11 => 304 + l
  | _ => 334 + l

/-- Number of days of month `m` (1 = January) of year `y`. -/
def daysInMonth (y : Int) (m : Nat) : Nat :=
  match m with
  | 2 => if DaysInYear y = 366 then 29 else 28
  | 4 => 30
  | 6 => 30
  | 9 => 30
  | 11 => 30
  | _ => 31

/-- Time value of midnight UTC at the start of a calendar date. -/
def utcMidnight (y : Int) (m d : Nat) : Int :=
  (DayFromYear y + daysBeforeMonth y m + (d - 1 : Int)) * msPerDay

/-- The calendar date that a date-only string `YYYY-MM-DD` names: its year,
month (1 = January) and day of the month; `none` for a string of another form
and for a date that does not exist. -/
def selectedDate (value : JSString) : Option (Nat × Nat × Nat) :=
  match value with
  | [y1, y2, y3, y4, 0x2D, m1, m2, 0x2D, d1, d2] =>
    match digitsValue [y1, y2, y3, y4], digitsValue [m1, m2], digitsValue [d1, d2] with
    | some y, some m, some d =>
      if 1 ≤ m ∧ m ≤ 12 ∧ 1 ≤ d ∧ d ≤ daysInMonth y m then some (y, m, d) else none
    | _, _, _ => none
  | _ => none

/-- What ECMAScript requires of `new Date` on a date-only string: the date is
read as midnight UTC.  Nothing is said of the other strings. -/
def ReadsDateOnly (newDate : JSString → Date) : Prop :=
  ∀ (value : JSString) (y m d : Nat), selectedDate value = some (y, m, d) →
    newDate value = some (utcMidnight y m d)

/-- A sample engine for running the script on examples whose birth values are
date-only strings or no dates at all: it reads a date-only string as ECMAScript
requires and makes an invalid date of any other string.  It is not a full
engine: real ones read further forms (`YYYY`, `YYYY-MM`, date-times, and more
by their own rules), which is why the theorems take `newDate` as a parameter. -/
def isoDateOnly (value : JSString) : Date :=
  (selectedDate value).map (fun a => utcMidnight a.1 a.2.1 a.2.2)

/-- Decimal digits of `n`, zero-padded to `w` places (low `w` digits). -/
def padDigits : Nat → Nat → JSString
  | 0, _ => []
  | w + 1, n => padDigits w (n / 10) ++ [0x30 + n % 10]

/-- `Date.prototype.toISOString` of a valid time value:
`YYYY-MM-DDTHH:mm:ss.sssZ`, the year written with a sign and six digits when
it is outside 0..9999. -/
def toISOString (t : Int) : JSString :=
  let y := YearFromTime t
  let year :=
    if 0 ≤ y ∧ y ≤ 9999 then padDigits 4 y.toNat
    else (if y < 0 then str "-" else str "+") ++ padDigits 6 y.natAbs
  year ++ str "-" ++ padDigits 2 (MonthFromTime t + 1).toNat ++ str "-" ++
    padDigits 2 (DateFromTime t).toNat ++ str "T" ++ padDigits 2 (HourFromTime t).toNat ++
    str ":" ++ padDigits 2 (MinFromTime t).toNat ++ str ":" ++
    padDigits 2 (SecFromTime t).toNat ++ str "." ++ padDigits 3 (msFromTime t).toNat ++ str "Z"

/-- `s.replace(a, b)` for one-code-unit strings: the first `a` becomes `b`. -/
def replaceFirst (a b : Nat) : JSString → JSString
  | [] => []
  | c :: rest => if c = a then b :: rest else c :: replaceFirst a b rest

/-- `s.substring(0, n)`. -/
def substring0 (n : Nat) (s : JSString) : JSString := s.take n

/-- The script's `validateBirth`.  `newDate` is the engine's `new Date(value)`
on a string, `tz` the local time zone, `now` the clock reading of `new Date()`. -/
def validateBirth (newDate : JSString → Date) (tz : TimeZone) (now : Int) (value : JSString) :
    JSString :=
  if value = [] then str "Please select your birth date." else
  let birthDate : Date := newDate value
  let now : Date := some now
  if Num.lt now birthDate then str "Birth date cannot be in the future." else
  let age := Num.sub (getFullYear tz now) (getFullYear tz birthDate)
  let m := Num.sub (getMonth tz now) (getMonth tz birthDate)
  let age :=
    if Num.lt m (some 0) || (Num.eq m (some 0) && Num.lt (getDate tz now) (getDate tz birthDate))
    then Num.sub age (some 1) else age
  if Num.lt age (some 13) then str "You must be at least 13 years old." else str ""

/-! ## The page and its handlers -/

/-- The five fields of the form a user fills in. -/
structure FormFields where
  fullName : JSString
  email : JSString
  phone : JSString
  birth : JSString
  terms : Bool
deriving DecidableEq

/-- Keys of the `err` and `errors` objects, in their order of insertion. -/
inductive Field where
  | fullName | email | phone | birth | terms
deriving DecidableEq

/-- What the script reads and writes on the page.  `defaults` are the field
values the document gives the form, which `form.reset()` restores. -/
structure Page where
  form : FormFields
  defaults : FormFields
  timestamp : JSString
  err : Field → JSString
  tableBody : List (List JSString)
  successText : JSString
  successOpacity : JSString

/-- The text `now.toISOString().replace("T", " ").substring(0, 19)`. -/
def timestampText (now : Int) : JSString :=
  substring0 19 (replaceFirst 0x54 0x20 (toISOString now))

/-- The script's `setTimestamp`, with `now` the clock reading of `new Date()`. -/
def setTimestamp (now : Int) (p : Page) : Page :=
  { p with timestamp := timestampText now }

/-- The script's `clearErrors`. -/
def clearErrors (p : Page) : Page :=
  { p with err := fun _ => str "" }

/-- The script's `showSuccessMessage` (the fade-out is left to `fadeSuccess`). -/
def showSuccessMessage (p : Page) : Page :=
  { p with successText := str "✅ Entry added successfully!", successOpacity := str "1" }

/-- The timer callback of `showSuccessMessage`, two seconds later. -/
def fadeSuccess (p : Page) : Page :=
  { p with successOpacity := str "0" }

/-- The object `values` of the submit handler: the snapshot of the form. -/
def values (form : FormFields) : FormFields :=
  { fullName := trim form.fullName
    email := trim form.email
    phone := trim form.phone
    birth := form.birth
    terms := form.terms }

/-- The object `errors` of the submit handler; `now` is the clock reading
inside `validateBirth`. -/
def errors (newDate : JSString → Date) (tz : TimeZone) (now : Int) (v : FormFields) :
    Field → JSString
  | .fullName => validateFullName v.fullName
  | .email => validateEmail v.email
  | .phone => validatePhone v.phone
  | .birth => validateBirth newDate tz now v.birth
  | .terms => validateTerms v.terms

/-- `Object.entries(errors)`. -/
def entries (errs : Field → JSString) : List (Field × JSString) :=
  [.fullName, .email, .phone, .birth, .terms].map (fun k => (k, errs k))

/-- The loop of the submit handler over the entries of `errors`: a non-empty
message goes to its error slot and clears `valid`. -/
def showErrors : List (Field × JSString) → (Field → JSString) × Bool → (Field → JSString) × Bool
  | [], st => st
  | (key, message) :: rest, (err, valid) =>
    if message ≠ [] then showErrors rest (fun k => if k = key then message else err k, false)
    else showErrors rest (err, valid)

/-- The cells of the row the submit handler builds. -/
def rowCells (timestamp : JSString) (v : FormFields) : List JSString :=
  [timestamp, v.fullName, v.email, v.phone, v.birth, if v.terms then str "Yes" else str "No"]

/-- The submit handler.  `t1`, `t2`, `t3` are the clock readings of its three
`new Date()` calls: the first `setTimestamp`, `validateBirth`, and the
`setTimestamp` after the reset; `newDate` and `tz` are passed on to
`validateBirth`. -/
def submit (newDate : JSString → Date) (tz : TimeZone) (t1 t2 t3 : Int) (p : Page) : Page :=
  let p := clearErrors p
  let p := setTimestamp t1 p
  let v := values p.form
  let errs := errors newDate tz t2 v
  let shown := showErrors (entries errs) (p.err, true)
  let p := { p with err := shown.1 }
  let valid := shown.2
  if !valid then p else
  let p := { p with tableBody := p.tableBody ++ [rowCells p.timestamp v] }
  let p := showSuccessMessage p
  let p := { p with form := p.defaults }
  setTimestamp t3 p

/-- The click handler of the clear button. -/
def clear (now : Int) (p : Page) : Page :=
  setTimestamp now (clearErrors p)

/-- What can happen to the page: the user changes the form fields, submits the
form, presses the clear button, or the timer of the success notice fires. -/
inductive Event where
  | input (form : FormFields)
  | submit (t1 t2 t3 : Int)
  | clear (now : Int)
  | fade

/-- The page after one event. -/
def handle (newDate : JSString → Date) (tz : TimeZone) (p : Page) : Event → Page
  | .input form => { p with form := form }
  | .submit t1 t2 t3 => submit newDate tz t1 t2 t3 p
  | .clear now => clear now p
  | .fade => fadeSuccess p

/-- The page after a sequence of events. -/
def run (newDate : JSString → Date) (tz : TimeZone) (p : Page) (events : List Event) : Page :=
  events.foldl (handle newDate tz) p

/-! ## The script's age check, restated on time values -/

/-- The condition of the script's line 63 on two time values: the local getters
read an earlier month from `now` than from `b`, or the same month and an
earlier day. -/
def gettersMonthDayPrecedes (tz : TimeZone) (now b : Int) : Bool :=
  decide (MonthFromTime (LocalTime tz now) < MonthFromTime (LocalTime tz b)) ||
  (decide (MonthFromTime (LocalTime tz now) = MonthFromTime (LocalTime tz b)) &&
    decide (DateFromTime (LocalTime tz now) < DateFromTime (LocalTime tz b)))

/-- The number the script's lines 61 to 63 leave in `age` for the time values
`now` and `b`, every field read with the local getters. -/
def ageByGetters (tz : TimeZone) (now b : Int) : Int :=
  let years := YearFromTime (LocalTime tz now) - YearFromTime (LocalTime tz b)
  if gettersMonthDayPrecedes tz now b then years - 1 else years

/-- Year, month (0 = January) and day of the month that the local getters
read from a time value. -/
def localDate (tz : TimeZone) (t : Int) : Int × Int × Int :=
  (YearFromTime (LocalTime tz t), MonthFromTime (LocalTime tz t), DateFromTime (LocalTime tz t))

/-! ## The specification's vocabulary -/

/-- The whitespace-separated tokens of a string, in the specification's sense:
its maximal runs of code units that are not white space. -/
def tokens (s : JSString) : List JSString :=
  (s.splitOnP isWhiteSpace).filter (fun t => !t.isEmpty)

/-- A string that is empty or holds white space only. -/
def blank (s : JSString) : Bool := s.all isWhiteSpace

/-- What the e-mail pattern accepts, spelled out: `local@domain.rest` with
non-empty `local` and `domain`, at least two code units of `rest`, and no `@`
or white space inside any of the three (dots are allowed in all of them). -/
def EmailShape (v : JSString) : Prop :=
  ∃ l d t : JSString, v = l ++ 0x40 :: (d ++ 0x2E :: t) ∧ l ≠ [] ∧ d ≠ [] ∧ 2 ≤ t.length ∧
    ∀ c ∈ l ++ d ++ t, c ≠ 0x40 ∧ isWhiteSpace c = false

/-- The segment of a string after its last dot (the whole string when it has
no dot). -/
def afterLastDot (v : JSString) : JSString :=
  (v.reverse.takeWhile (fun c => c != 0x2E)).reverse

/-- A phone value with its white space, hyphens and parentheses removed. -/
def withoutFiller (value : JSString) : JSString :=
  value.filter (fun c => !(isWhiteSpace c || (str "-()").contains c))

/-- The Finnish formats of the specification: `+358` followed by 6 to 12
decimal digits, or `0` followed by 5 to 12 decimal digits. -/
def finnishPhone (s : JSString) : Bool :=
  (s.take 4 == str "+358" && decide (6 ≤ (s.drop 4).length) && decide ((s.drop 4).length ≤ 12) &&
      (s.drop 4).all isDigit) ||
  (s.take 1 == str "0" && decide (5 ≤ (s.drop 1).length) && decide ((s.drop 1).length ≤ 12) &&
      (s.drop 1).all isDigit)

/-- Year, month (1 = January) and day of the month of a time value. -/
def calendarDate (t : Int) : Int × Int × Int :=
  (YearFromTime t, MonthFromTime t + 1, DateFromTime t)

/-- Age in whole years, in the specification's words, of someone born on the
calendar date `birth` on the calendar date `today`: the year difference, less
one when the month and day of `today` come before those of `birth`. -/
def ageOnDate (today birth : Int × Int × Int) : Int :=
  let years := today.1 - birth.1
  if today.2.1 < birth.2.1 ∨ (today.2.1 = birth.2.1 ∧ today.2.2 < birth.2.2) then years - 1
  else years

/-- Do all five validators accept the snapshot `v`, `validateBirth` reading
the clock at `now`? -/
def allValid (newDate : JSString → Date) (tz : TimeZone) (now : Int) (v : FormFields) : Prop :=
  validateFullName v.fullName = str "" ∧ validateEmail v.email = str "" ∧
  validatePhone v.phone = str "" ∧ validateBirth newDate tz now v.birth = str "" ∧
  validateTerms v.terms = str ""

instance (newDate : JSString → Date) (tz : TimeZone) (now : Int) (v : FormFields) :
    Decidable (allValid newDate tz now v) := by
  unfold allValid
  infer_instance

/-- A filled-in page: a form every validator accepts, stale error texts, and
one earlier row in the table. -/
def samplePage : Page :=
  { form := ⟨str " Jo An ", str "a@b.co", str "040 123 4567", str "2000-01-01", true⟩
    defaults := ⟨str "", str "", str "", str "", false⟩
    timestamp := str ""
    err := fun _ => str "stale"
    tableBody := [[str "2025-06-14 16:59:00", str "Al Bo", str "x@y.fi", str "0401234", str "1999-12-31",
      str "Yes"]]
    successText := str ""
    successOpacity := str "0" }

/-- A page whose form every validator rejects. -/
def rejectedPage : Page :=
  { samplePage with form := ⟨str "J", str "a.com", str "12", str "", false⟩ }

/-- Lexicographic order on (year, month, day) triples. -/
def lexLe (a b : Int × Int × Int) : Prop :=
  a.1 < b.1 ∨ (a.1 = b.1 ∧ (a.2.1 < b.2.1 ∨ (a.2.1 = b.2.1 ∧ a.2.2 ≤ b.2.2)))

instance (a b : Int × Int × Int) : Decidable (lexLe a b) := by
  unfold lexLe
  infer_instance

/-- A (year, month, day) triple thirteen years on. -/
def plus13 (a : Int × Int × Int) : Int × Int × Int := (a.1 + 13, a.2.1, a.2.2)

/-- A time zone whose offset from UTC is always less than a day, as the offset
of every real time zone is. -/
def offsetsUnderADay (tz : TimeZone) : Prop :=
  ∀ t, -msPerDay < tz t ∧ tz t < msPerDay

/-- Reading of a text of the form `YYYY-MM-DD HH:MM:SS`: its six numbers, or
`none` when the text is not of that form (19 code units, decimal digits, a
hyphen at places 4 and 7, one space at place 10, a colon at places 13 and 16). -/
def readTimestamp : JSString → Option (Int × Int × Int × Int × Int × Int)
  | [y1, y2, y3, y4, 0x2D, m1, m2, 0x2D, d1, d2, 0x20, h1, h2, 0x3A, n1, n2, 0x3A, s1, s2] =>
    match digitsValue [y1, y2, y3, y4], digitsValue [m1, m2], digitsValue [d1, d2],
      digitsValue [h1, h2], digitsValue [n1, n2], digitsValue [s1, s2] with
    | some y, some m, some d, some h, some n, some s => some (y, m, d, h, n, s)
    | _, _, _, _, _, _ => none
  | _ => none

/-- The sample page before any entry was accepted: its table is empty. -/
def emptyTablePage : Page :=
  { samplePage with tableBody := [] }

/-- A session on the page: an accepted entry, a clear, then a rejected entry
and an accepted one. -/
def sampleSession : List Event :=
  [.submit 1749920400000 1749920400000 1749920400000, .clear 1749920401000,
    .input ⟨str "J", str "a.com", str "12", str "", false⟩,
    .submit 1749920402000 1749920402000 1749920402000,
    .input ⟨str "Al Bo", str "x@y.fi", str "+358 40 123 4567", str "1999-12-31", true⟩,
    .submit 1749920403000 1749920403000 1749920403000, .fade]

/-! ## What the patterns match -/

namespace Regex

/-- The strings a pattern matches (as a whole). -/
inductive Matches : Regex → JSString → Prop where
  | empty : Matches .empty []
  | cls {p : Nat → Bool} {c : Nat} : p c = true → Matches (.cls p) [c]
  | seq {a b : Regex} {s t : JSString} :
      Matches a s → Matches b t → Matches (.seq a b) (s ++ t)
  | altL {a b : Regex} {s : JSString} : Matches a s → Matches (.alt a b) s
  | altR {a b : Regex} {s : JSString} : Matches b s → Matches (.alt a b) s
  | starNil {a : Regex} : Matches (.star a) []
  | starCons {a : Regex} {s t : JSString} :
      Matches a s → Matches (.star a) t → Matches (.star a) (s ++ t)

theorem matches_never (s : JSString) : ¬ Matches .never s := by
  intro h; cases h

theorem matches_empty_iff (s : JSString) : Matches .empty s ↔ s = [] := by
  constructor
  · intro h; cases h; rfl
  · rintro rfl; exact .empty

theorem matches_cls_iff (p : Nat → Bool) (s : JSString) :
    Matches (.cls p) s ↔ ∃ c, s = [c] ∧ p c = true := by
  constructor
  · intro h; cases h with | cls hc => exact ⟨_, rfl, hc⟩
  · rintro ⟨c, rfl, hc⟩; exact .cls hc

theorem matches_seq_iff (a b : Regex) (s : JSString) :
    Matches (.seq a b) s ↔ ∃ u v, s = u ++ v ∧ Matches a u ∧ Matches b v := by
  constructor
  · intro h; cases h with | seq h1 h2 => exact ⟨_, _, rfl, h1, h2⟩
  · rintro ⟨u, v, rfl, h1, h2⟩; exact .seq h1 h2

theorem matches_alt_iff (a b : Regex) (s : JSString) :
    Matches (.alt a b) s ↔ Matches a s ∨ Matches b s := by
  constructor
  · intro h
    cases h with
    | altL h => exact Or.inl h
    | altR h => exact Or.inr h
  · rintro (h | h)
    · exact .altL h
    · exact .altR h

theorem nullable_iff (r : Regex) : r.nullable = true ↔ Matches r [] := by
  induction r with
  | never => simp [nullable, matches_never]
  | empty => simp [nullable, matches_empty_iff]
  | cls p => simp [nullable, matches_cls_iff]
  | seq a b iha ihb =>
    simp only [nullable, Bool.and_eq_true, iha, ihb, matches_seq_iff]
    constructor
    · rintro ⟨h1, h2⟩; exact ⟨[], [], rfl, h1, h2⟩
    · rintro ⟨u, v, h, h1, h2⟩
      have hu : u = [] := by
        cases u with
        | nil => rfl
        | cons x xs => simp at h
      have hv : v = [] := by
        subst hu; simpa using h.symm
      subst hu; subst hv; exact ⟨h1, h2⟩
  | alt a b iha ihb => simp [nullable, iha, ihb, matches_alt_iff]
  | star a _ => simp [nullable, Matches.starNil]

/-- A match of `a*` on a non-empty string starts with a non-empty match of `a`. -/
theorem matches_star_cons {a : Regex} {r : Regex} {w : JSString} (h : Matches r w) :
    ∀ (c : Nat) (s : JSString), r = .star a → w = c :: s →
      ∃ u v, s = u ++ v ∧ Matches a (c :: u) ∧ Matches (.star a) v := by
  induction h with
  | empty => intro c s hr; cases hr
  | cls _ => intro c s hr; cases hr
  | seq _ _ _ _ => intro c s hr; cases hr
  | altL _ _ => intro c s hr; cases hr
  | altR _ _ => intro c s hr; cases hr
  | starNil => intro c s _ hw; cases hw
  | @starCons a1 s1 t1 h1 h2 _ ih2 =>
    intro c s hr hw
    cases hr
    cases s1 with
    | nil => exact ih2 c s rfl (by simpa using hw)
    | cons x xs =>
      simp only [List.cons_append, List.cons.injEq] at hw
      obtain ⟨rfl, rfl⟩ := hw
      exact ⟨xs, t1, rfl, h1, h2⟩

theorem deriv_iff (r : Regex) : ∀ (c : Nat) (s : JSString),
    Matches (r.deriv c) s ↔ Matches r (c :: s) := by
  induction r with
  | never => intro c s; simp [deriv, matches_never]
  | empty => intro c s; simp [deriv, matches_never, matches_empty_iff]
  | cls p =>
    intro c s
    by_cases hp : p c = true
    · simp only [deriv, hp, if_true, matches_empty_iff, matches_cls_iff]
      constructor
      · rintro rfl; exact ⟨c, rfl, hp⟩
      · rintro ⟨x, hx, _⟩
        simp only [List.cons.injEq] at hx
        exact hx.2
    · simp only [deriv, hp, matches_cls_iff]
      constructor
      · intro h; exact absurd h (matches_never s)
      · rintro ⟨x, hx, hpx⟩
        simp only [List.cons.injEq] at hx
        rw [← hx.1] at hpx
        exact absurd hpx hp
  | seq a b iha ihb =>
    intro c s
    have key : Matches (.seq a b) (c :: s) ↔
        (∃ u v, s = u ++ v ∧ Matches a (c :: u) ∧ Matches b v) ∨
          (Matches a [] ∧ Matches b (c :: s)) := by
      rw [matches_seq_iff]
      constructor
      · rintro ⟨u, v, h, h1, h2⟩
        cases u with
        | nil => right; simp only [List.nil_append] at h; subst h; exact ⟨h1, h2⟩
        | cons x xs =>
          simp only [List.cons_append, List.cons.injEq] at h
          obtain ⟨rfl, rfl⟩ := h
          exact Or.inl ⟨xs, v, rfl, h1, h2⟩
      · rintro (⟨u, v, rfl, h1, h2⟩ | ⟨h1, h2⟩)
        · exact ⟨c :: u, v, rfl, h1, h2⟩
        · exact ⟨[], c :: s, rfl, h1, h2⟩
    rw [key]
    by_cases hn : a.nullable = true
    · have hn2 := (nullable_iff a).1 hn
      simp only [deriv, hn, if_true, matches_alt_iff, ihb, hn2, true_and]
      rw [matches_seq_iff]
      simp only [iha]
    · have hn2 : ¬ Matches a [] := fun h => hn ((nullable_iff a).2 h)
      simp only [deriv, hn, Bool.false_eq_true, if_false, hn2, false_and, or_false]
      rw [matches_seq_iff]
      simp only [iha]
  | alt a b iha ihb => intro c s; simp [deriv, matches_alt_iff, iha, ihb]
  | star a iha =>
    intro c s
    simp only [deriv, matches_seq_iff, iha]
    constructor
    · rintro ⟨u, v, rfl, h1, h2⟩
      exact Matches.starCons h1 h2
    · intro h
      exact matches_star_cons h c s rfl rfl

theorem foldl_deriv_iff (s : JSString) : ∀ (r : Regex) (t : JSString),
    Matches (s.foldl (fun q c => q.deriv c) r) t ↔ Matches r (s ++ t) := by
  induction s with
  | nil => intro r t; simp
  | cons c s ih => intro r t; simp [List.foldl_cons, ih, deriv_iff]

/-- The matcher decides the denotation. -/
theorem test_iff (r : Regex) (s : JSString) : r.test s = true ↔ Matches r s := by
  unfold test
  rw [nullable_iff, foldl_deriv_iff]
  simp

theorem matches_chr_iff (c : Char) (s : JSString) : Matches (chr c) s ↔ s = [c.toNat] := by
  unfold chr
  rw [matches_cls_iff]
  constructor
  · rintro ⟨x, rfl, hx⟩
    simp only [beq_iff_eq] at hx
    rw [hx]
  · rintro rfl
    exact ⟨c.toNat, rfl, by simp⟩

theorem matches_star_cls_iff (p : Nat → Bool) (s : JSString) :
    Matches (star (cls p)) s ↔ ∀ c ∈ s, p c = true := by
  constructor
  · intro h
    generalize hr : star (cls p) = r at h
    induction h with
    | empty => cases hr
    | cls _ => cases hr
    | seq _ _ _ _ => cases hr
    | altL _ _ => cases hr
    | altR _ _ => cases hr
    | starNil => simp
    | starCons h1 _ _ ih2 =>
      cases hr
      obtain ⟨x, rfl, hx⟩ := (matches_cls_iff p _).1 h1
      intro c hc
      simp only [List.singleton_append, List.mem_cons] at hc
      rcases hc with rfl | hc
      · exact hx
      · exact ih2 rfl c hc
  · intro h
    induction s with
    | nil => exact .starNil
    | cons x xs ih =>
      have hx : p x = true := h x (List.mem_cons_self x xs)
      have hxs : ∀ c ∈ xs, p c = true := fun c hc => h c (List.mem_cons_of_mem x hc)
      exact Matches.starCons (s := [x]) (.cls hx) (ih hxs)

theorem matches_times_cls_iff (p : Nat → Bool) : ∀ (n : Nat) (s : JSString),
    Matches (times n (cls p)) s ↔ s.length = n ∧ ∀ c ∈ s, p c = true := by
  intro n
  induction n with
  | zero =>
    intro s
    simp only [times, matches_empty_iff, List.length_eq_zero]
    constructor
    · rintro rfl; simp
    · intro h; exact h.1
  | succ n ih =>
    intro s
    simp only [times, matches_seq_iff, matches_cls_iff, ih]
    constructor
    · rintro ⟨u, v, rfl, ⟨x, rfl, hx⟩, hv, hall⟩
      refine ⟨by simp [hv], ?_⟩
      intro c hc
      simp only [List.singleton_append, List.mem_cons] at hc
      rcases hc with rfl | hc
      · exact hx
      · exact hall c hc
    · rintro ⟨hlen, hall⟩
      cases s with
      | nil => simp at hlen
      | cons x xs =>
        refine ⟨[x], xs, rfl, ⟨x, rfl, hall x (List.mem_cons_self x xs)⟩, ?_, ?_⟩
        · simpa using hlen
        · intro c hc; exact hall c (List.mem_cons_of_mem x hc)

theorem matches_upTo_cls_iff (p : Nat → Bool) : ∀ (n : Nat) (s : JSString),
    Matches (upTo n (cls p)) s ↔ s.length ≤ n ∧ ∀ c ∈ s, p c = true := by
  intro n
  induction n with
  | zero =>
    intro s
    simp only [upTo, matches_empty_iff, Nat.le_zero, List.length_eq_zero]
    constructor
    · rintro rfl; simp
    · intro h; exact h.1
  | succ n ih =>
    intro s
    simp only [upTo, opt, matches_alt_iff, matches_seq_iff, matches_cls_iff, ih,
      matches_empty_iff]
    constructor
    · rintro (⟨u, v, rfl, ⟨x, rfl, hx⟩, hv, hall⟩ | rfl)
      · refine ⟨by simp; omega, ?_⟩
        intro c hc
        simp only [List.singleton_append, List.mem_cons] at hc
        rcases hc with rfl | hc
        · exact hx
        · exact hall c hc
      · simp
    · rintro ⟨hlen, hall⟩
      cases s with
      | nil => right; rfl
      | cons x xs =>
        left
        refine ⟨[x], xs, rfl, ⟨x, rfl, hall x (List.mem_cons_self x xs)⟩, ?_, ?_⟩
        · simp only [List.length_cons] at hlen; omega
        · intro c hc; exact hall c (List.mem_cons_of_mem x hc)

theorem matches_plus_cls_iff (p : Nat → Bool) (s : JSString) :
    Matches (plus (cls p)) s ↔ s ≠ [] ∧ ∀ c ∈ s, p c = true := by
  simp only [plus, matches_seq_iff, matches_cls_iff, matches_star_cls_iff]
  constructor
  · rintro ⟨u, v, rfl, ⟨x, rfl, hx⟩, hall⟩
    refine ⟨by simp, ?_⟩
    intro c hc
    simp only [List.singleton_append, List.mem_cons] at hc
    rcases hc with rfl | hc
    · exact hx
    · exact hall c hc
  · rintro ⟨hne, hall⟩
    cases s with
    | nil => exact absurd rfl hne
    | cons x xs =>
      exact ⟨[x], xs, rfl, ⟨x, rfl, hall x (List.mem_cons_self x xs)⟩,
        fun c hc => hall c (List.mem_cons_of_mem x hc)⟩

theorem matches_atLeast_cls_iff (p : Nat → Bool) (m : Nat) (s : JSString) :
    Matches (atLeast m (cls p)) s ↔ m ≤ s.length ∧ ∀ c ∈ s, p c = true := by
  simp only [atLeast, matches_seq_iff, matches_times_cls_iff, matches_star_cls_iff]
  constructor
  · rintro ⟨u, v, rfl, ⟨hu, hau⟩, hav⟩
    refine ⟨by simp [hu], ?_⟩
    intro c hc
    rcases List.mem_append.1 hc with h | h
    · exact hau c h
    · exact hav c h
  · rintro ⟨hlen, hall⟩
    refine ⟨s.take m, s.drop m, (List.take_append_drop m s).symm, ⟨?_, ?_⟩, ?_⟩
    · simp [List.length_take, hlen]
    · intro c hc; exact hall c (List.mem_of_mem_take hc)
    · intro c hc; exact hall c (List.mem_of_mem_drop hc)

theorem matches_between_cls_iff (p : Nat → Bool) (m n : Nat) (hmn : m ≤ n) (s : JSString) :
    Matches (between m n (cls p)) s ↔
      (m ≤ s.length ∧ s.length ≤ n) ∧ ∀ c ∈ s, p c = true := by
  simp only [between, matches_seq_iff, matches_times_cls_iff, matches_upTo_cls_iff]
  constructor
  · rintro ⟨u, v, rfl, ⟨hu, hau⟩, hv, hav⟩
    refine ⟨by simp only [List.length_append]; omega, ?_⟩
    intro c hc
    rcases List.mem_append.1 hc with h | h
    · exact hau c h
    · exact hav c h
  · rintro ⟨⟨h1, h2⟩, hall⟩
    refine ⟨s.take m, s.drop m, (List.take_append_drop m s).symm, ⟨?_, ?_⟩, ?_, ?_⟩
    · simp [List.length_take, h1]
    · intro c hc; exact hall c (List.mem_of_mem_take hc)
    · simp only [List.length_drop]; omega
    · intro c hc; exact hall c (List.mem_of_mem_drop hc)

end Regex

/-! ## Trimming and splitting -/

theorem trim_eq (s : JSString) :
    trim s = (s.dropWhile isWhiteSpace).rdropWhile isWhiteSpace := rfl

theorem trim_eq_nil_iff (s : JSString) : trim s = [] ↔ ∀ c ∈ s, isWhiteSpace c = true := by
  rw [trim_eq, List.rdropWhile_eq_nil_iff]
  constructor
  · intro h
    rw [← List.dropWhile_eq_nil_iff]
    cases hd : s.dropWhile isWhiteSpace with
    | nil => rfl
    | cons x xs =>
      have h1 : isWhiteSpace x = true := h x (by rw [hd]; exact List.mem_cons_self x xs)
      have h2 := List.head?_dropWhile_not isWhiteSpace s
      rw [hd] at h2
      simp only [List.head?_cons] at h2
      simp [h1] at h2
  · intro h x hx
    exact h x ((List.dropWhile_suffix isWhiteSpace).subset hx)

theorem trim_eq_nil_iff_all (s : JSString) : trim s = [] ↔ s.all isWhiteSpace = true := by
  rw [trim_eq_nil_iff, List.all_eq_true]

/-- A non-empty trimmed string starts with a code unit that is not white space. -/
theorem trim_head (s : JSString) (x : Nat) (h : (trim s).head? = some x) :
    isWhiteSpace x = false := by
  rw [trim_eq] at h
  obtain ⟨t, ht⟩ := List.rdropWhile_prefix (p := isWhiteSpace) (l := s.dropWhile isWhiteSpace)
  cases hr : (s.dropWhile isWhiteSpace).rdropWhile isWhiteSpace with
  | nil => rw [hr] at h; simp at h
  | cons y ys =>
    rw [hr] at h ht
    simp only [List.head?_cons, Option.some.injEq] at h
    subst h
    have h2 := List.head?_dropWhile_not isWhiteSpace s
    rw [← ht] at h2
    simpa using h2

/-- A non-empty trimmed string ends with a code unit that is not white space. -/
theorem trim_getLast (s : JSString) (x : Nat) (h : (trim s).getLast? = some x) :
    isWhiteSpace x = false := by
  unfold trim at h
  rw [List.getLast?_reverse] at h
  have h2 := List.head?_dropWhile_not isWhiteSpace (s.dropWhile isWhiteSpace).reverse
  rw [h] at h2
  simpa using h2

theorem filter_modifyHead_nil (f g : JSString → JSString) (l : List JSString)
    (h : ∀ t, f t = g t) : l.modifyHead f = l.modifyHead g := by
  cases l with
  | nil => rfl
  | cons a l => simp [h]

/-- Dropping the empty pieces of `split(/\s+/)` leaves the tokens. -/
theorem splitWhiteSpace_go_filter (s : JSString) : ∀ (cur : JSString) (inSep : Bool),
    (inSep = true → cur = []) →
    (splitWhiteSpace.go cur inSep s).filter (fun t => !t.isEmpty) =
      ((s.splitOnP isWhiteSpace).modifyHead (fun t => cur.reverse ++ t)).filter
        (fun t => !t.isEmpty) := by
  induction s with
  | nil => intro cur inSep _; simp [splitWhiteSpace.go]
  | cons c rest ih =>
    intro cur inSep hcur
    rw [List.splitOnP_cons]
    by_cases hc : isWhiteSpace c = true
    · simp only [splitWhiteSpace.go, hc, if_true, List.modifyHead_cons, List.append_nil]
      have ih0 := ih [] true (fun _ => rfl)
      simp only [List.reverse_nil, List.nil_append] at ih0
      have hid : (List.splitOnP isWhiteSpace rest).modifyHead (fun t => t) =
          List.splitOnP isWhiteSpace rest := by
        cases List.splitOnP isWhiteSpace rest <;> rfl
      rw [hid] at ih0
      cases inSep with
      | true =>
        simp only [if_true]
        rw [hcur rfl, ih0]
        simp
      | false =>
        simp only [Bool.false_eq_true, if_false, List.filter_cons]
        rw [ih0]
    · simp only [splitWhiteSpace.go, hc, Bool.false_eq_true, if_false]
      rw [ih (c :: cur) false (by simp), List.modifyHead_modifyHead]
      congr 1
      apply filter_modifyHead_nil
      intro t
      simp

theorem splitWhiteSpace_filter (s : JSString) :
    (splitWhiteSpace s).filter (fun t => !t.isEmpty) = tokens s := by
  unfold splitWhiteSpace tokens
  rw [splitWhiteSpace_go_filter s [] false (by simp)]
  congr 1
  cases List.splitOnP isWhiteSpace s <;> simp

/-- On a string with no white space at either end `split(/\s+/)` yields no
empty piece. -/
theorem splitWhiteSpace_go_nonempty (s : JSString) : ∀ (cur : JSString) (inSep : Bool),
    (∀ x, s.getLast? = some x → isWhiteSpace x = false) →
    (inSep = false → cur = [] → ∃ x, s.head? = some x ∧ isWhiteSpace x = false) →
    (inSep = true → s ≠ []) →
    ∀ t ∈ splitWhiteSpace.go cur inSep s, t ≠ [] := by
  induction s with
  | nil =>
    intro cur inSep _ h2 h3 t ht
    cases inSep with
    | true => exact absurd rfl (h3 rfl)
    | false =>
      simp only [splitWhiteSpace.go, List.mem_singleton] at ht
      subst ht
      intro hnil
      have hc : cur = [] := by simpa using hnil
      obtain ⟨x, hx, _⟩ := h2 rfl hc
      simp at hx
  | cons c rest ih =>
    intro cur inSep h1 h2 _ t ht
    have hlast : ∀ x, rest.getLast? = some x → isWhiteSpace x = false := by
      intro x hx
      apply h1 x
      cases rest with
      | nil => simp at hx
      | cons y ys => rw [List.getLast?_cons_cons]; exact hx
    by_cases hc : isWhiteSpace c = true
    · have hrest : rest ≠ [] := by
        rintro rfl
        have := h1 c (by simp)
        rw [hc] at this
        cases this
      have hgo : ∀ t ∈ splitWhiteSpace.go [] true rest, t ≠ [] :=
        ih [] true hlast (by simp) (fun _ => hrest)
      cases inSep with
      | true =>
        simp only [splitWhiteSpace.go, hc, if_true] at ht
        exact hgo t ht
      | false =>
        simp only [splitWhiteSpace.go, hc, if_true, Bool.false_eq_true, if_false,
          List.mem_cons] at ht
        rcases ht with rfl | ht
        · intro hnil
          have hcur : cur = [] := by simpa using hnil
          obtain ⟨x, hx, hxw⟩ := h2 rfl hcur
          simp only [List.head?_cons, Option.some.injEq] at hx
          subst hx
          rw [hc] at hxw
          cases hxw
        · exact hgo t ht
    · simp only [splitWhiteSpace.go, hc, Bool.false_eq_true, if_false] at ht
      exact ih (c :: cur) false hlast (by simp) (by simp) t ht

theorem splitOnP_append_singleton (u : JSString) (w : Nat) (hw : isWhiteSpace w = true) :
    (u ++ [w]).splitOnP isWhiteSpace = u.splitOnP isWhiteSpace ++ [[]] := by
  induction u with
  | nil => simp [List.splitOnP_cons, hw]
  | cons x xs ih =>
    rw [List.cons_append, List.splitOnP_cons, List.splitOnP_cons, ih]
    by_cases hx : isWhiteSpace x = true
    · simp [hx]
    · simp only [hx, Bool.false_eq_true, if_false]
      cases hs : List.splitOnP isWhiteSpace xs with
      | nil => exact absurd hs (List.splitOnP_ne_nil _ _)
      | cons a l => simp

theorem tokens_append_white (ws : JSString) : ∀ (u : JSString),
    (∀ c ∈ ws, isWhiteSpace c = true) → tokens (u ++ ws) = tokens u := by
  induction ws with
  | nil => intro u _; simp
  | cons w ws ih =>
    intro u h
    have hw : isWhiteSpace w = true := h w (List.mem_cons_self w ws)
    have e : u ++ w :: ws = (u ++ [w]) ++ ws := by simp
    rw [e, ih (u ++ [w]) (fun c hc => h c (List.mem_cons_of_mem w hc))]
    unfold tokens
    rw [splitOnP_append_singleton u w hw]
    simp

theorem tokens_dropWhile (s : JSString) : tokens (s.dropWhile isWhiteSpace) = tokens s := by
  induction s with
  | nil => rfl
  | cons x xs ih =>
    by_cases hx : isWhiteSpace x = true
    · rw [List.dropWhile_cons_of_pos hx, ih]
      unfold tokens
      rw [List.splitOnP_cons]
      simp [hx]
    · rw [List.dropWhile_cons_of_neg hx]

theorem tokens_trim (s : JSString) : tokens (trim s) = tokens s := by
  unfold trim
  rw [← tokens_dropWhile s]
  generalize s.dropWhile isWhiteSpace = d
  have hsplit : d = (d.reverse.dropWhile isWhiteSpace).reverse ++
      (d.reverse.takeWhile isWhiteSpace).reverse := by
    rw [← List.reverse_append, List.takeWhile_append_dropWhile, List.reverse_reverse]
  conv_rhs => rw [hsplit]
  rw [tokens_append_white]
  intro c hc
  rw [List.mem_reverse] at hc
  exact List.mem_takeWhile_imp hc

/-- The pieces `validateFullName` works on are the tokens of the value. -/
theorem splitWhiteSpace_trim (s : JSString) (h : trim s ≠ []) :
    splitWhiteSpace (trim s) = tokens s := by
  rw [← tokens_trim, ← splitWhiteSpace_filter]
  symm
  rw [List.filter_eq_self]
  intro t ht
  have hne : t ≠ [] := by
    apply splitWhiteSpace_go_nonempty (trim s) [] false (trim_getLast s) _ (by simp) t ht
    intro _ _
    cases hts : trim s with
    | nil => exact absurd hts h
    | cons x xs => exact ⟨x, rfl, trim_head s x (by rw [hts]; rfl)⟩
  cases t with
  | nil => exact absurd rfl hne
  | cons a l => rfl

/-! ## The e-mail pattern -/

theorem emailRe_matches_iff (v : JSString) : emailRe.Matches v ↔ EmailShape v := by
  unfold emailRe EmailShape
  simp only [Regex.matches_seq_iff, Regex.matches_plus_cls_iff, Regex.matches_chr_iff,
    Regex.matches_atLeast_cls_iff]
  have hat : ('@' : Char).toNat = 0x40 := rfl
  have hdot : ('.' : Char).toNat = 0x2E := rfl
  have hcls : ∀ c : Nat, notAtWs c = true ↔ (c ≠ 0x40 ∧ isWhiteSpace c = false) := by
    intro c
    simp [notAtWs]
  constructor
  · rintro ⟨l, _, rfl, ⟨hl, hla⟩, _, _, rfl, rfl, d, _, rfl, ⟨hd, hda⟩, _, t, rfl, rfl, ht, hta⟩
    refine ⟨l, d, t, by simp [hat, hdot], hl, hd, ht, ?_⟩
    intro c hc
    rw [← hcls]
    simp only [List.mem_append] at hc
    rcases hc with (hc | hc) | hc
    · exact hla c hc
    · exact hda c hc
    · exact hta c hc
  · rintro ⟨l, d, t, rfl, hl, hd, ht, hall⟩
    refine ⟨l, _, rfl, ⟨hl, ?_⟩, [0x40], _, rfl, by rw [hat], d, _, rfl, ⟨hd, ?_⟩,
      [0x2E], t, rfl, by rw [hdot], ht, ?_⟩
    · intro c hc; rw [hcls]; exact hall c (by simp [hc])
    · intro c hc; rw [hcls]; exact hall c (by simp [hc])
    · intro c hc; rw [hcls]; exact hall c (by simp [hc])

theorem emailShape_not_blank (v : JSString) (h : EmailShape v) : trim v ≠ [] := by
  obtain ⟨l, d, t, rfl, -⟩ := h
  intro hnil
  rw [trim_eq_nil_iff] at hnil
  have := hnil 0x40 (by simp)
  revert this
  decide

theorem validateEmail_eq_nil_iff (v : JSString) : validateEmail v = str "" ↔ EmailShape v := by
  unfold validateEmail
  by_cases hb : trim v = []
  · simp only [hb, if_true]
    constructor
    · intro h; exact absurd h (by decide)
    · intro h; exact absurd hb (emailShape_not_blank v h)
  · simp only [hb, if_false]
    rw [← emailRe_matches_iff, ← Regex.test_iff]
    by_cases ht : emailRe.test v = true
    · simp [ht]
    · simp only [ht, Bool.false_eq_true, if_false, iff_false]
      decide

theorem emailShape_count (v : JSString) (h : EmailShape v) :
    v.count 0x40 = 1 ∧ ∀ c ∈ v, isWhiteSpace c = false := by
  obtain ⟨l, d, t, rfl, -, -, -, hall⟩ := h
  have hl : List.count 0x40 l = 0 :=
    List.count_eq_zero.2 (fun hc => (hall _ (by simp [hc])).1 rfl)
  have hd : List.count 0x40 d = 0 :=
    List.count_eq_zero.2 (fun hc => (hall _ (by simp [hc])).1 rfl)
  have ht : List.count 0x40 t = 0 :=
    List.count_eq_zero.2 (fun hc => (hall _ (by simp [hc])).1 rfl)
  constructor
  · simp [List.count_append, List.count_cons, hl, hd, ht]
  · intro c hc
    simp only [List.mem_append, List.mem_cons] at hc
    rcases hc with hc | rfl | hc | rfl | hc
    · exact (hall c (by simp [hc])).2
    · decide
    · exact (hall c (by simp [hc])).2
    · decide
    · exact (hall c (by simp [hc])).2

theorem trim_ne_nil_of_not_blank (v : JSString) (hb : blank v = false) : trim v ≠ [] := by
  intro h
  have h2 : blank v = true := (trim_eq_nil_iff_all v).1 h
  rw [hb] at h2
  cases h2

theorem validateEmail_of_not_shape (v : JSString) (hb : blank v = false)
    (hs : ¬ EmailShape v) : validateEmail v = str "Please enter a valid email address." := by
  have hb2 : trim v ≠ [] := trim_ne_nil_of_not_blank v hb
  have ht : emailRe.test v ≠ true := by
    intro h
    exact hs ((emailRe_matches_iff v).1 ((Regex.test_iff _ _).1 h))
  unfold validateEmail
  simp [hb2, ht]

/-! ## The phone patterns -/

theorem removeClass_isPhoneFiller (value : JSString) :
    removeClass isPhoneFiller value = withoutFiller value := by
  unfold removeClass withoutFiller
  apply List.filter_congr
  intro c _
  have hs : str "-()" = [0x2D, 0x28, 0x29] := by decide
  rw [hs, Bool.eq_iff_iff]
  simp [isPhoneFiller, List.contains_cons, and_assoc]

theorem intlPhoneRe_test_iff (s : JSString) :
    intlPhoneRe.test s = true ↔
      (s.take 4 = str "+358" ∧ 6 ≤ (s.drop 4).length ∧ (s.drop 4).length ≤ 12 ∧
        ∀ c ∈ s.drop 4, isDigit c = true) := by
  have hp : str "+358" = [0x2B, 0x33, 0x35, 0x38] := by decide
  have h1 : ('+' : Char).toNat = 0x2B := rfl
  have h2 : ('3' : Char).toNat = 0x33 := rfl
  have h3 : ('5' : Char).toNat = 0x35 := rfl
  have h4 : ('8' : Char).toNat = 0x38 := rfl
  rw [Regex.test_iff, hp]
  unfold intlPhoneRe
  simp only [Regex.matches_seq_iff, Regex.matches_chr_iff,
    Regex.matches_between_cls_iff isDigit 6 12 (by decide), h1, h2, h3, h4]
  constructor
  · rintro ⟨_, _, rfl, rfl, _, _, rfl, rfl, _, _, rfl, rfl, _, ds, rfl, rfl, ⟨h6, h12⟩, hall⟩
    simpa using ⟨h6, h12, hall⟩
  · rintro ⟨ht, h6, h12, hall⟩
    refine ⟨[0x2B], _, ?_, rfl, [0x33], _, rfl, rfl, [0x35], _, rfl, rfl, [0x38], s.drop 4,
      rfl, rfl, ⟨h6, h12⟩, hall⟩
    conv_lhs => rw [← List.take_append_drop 4 s, ht]
    rfl

theorem localPhoneRe_test_iff (s : JSString) :
    localPhoneRe.test s = true ↔
      (s.take 1 = str "0" ∧ 5 ≤ (s.drop 1).length ∧ (s.drop 1).length ≤ 12 ∧
        ∀ c ∈ s.drop 1, isDigit c = true) := by
  have hp : str "0" = [0x30] := by decide
  have h1 : ('0' : Char).toNat = 0x30 := rfl
  rw [Regex.test_iff, hp]
  unfold localPhoneRe
  simp only [Regex.matches_seq_iff, Regex.matches_chr_iff,
    Regex.matches_between_cls_iff isDigit 5 12 (by decide), h1]
  constructor
  · rintro ⟨_, ds, rfl, rfl, ⟨h5, h12⟩, hall⟩
    simpa using ⟨h5, h12, hall⟩
  · rintro ⟨ht, h5, h12, hall⟩
    refine ⟨[0x30], s.drop 1, ?_, rfl, ⟨h5, h12⟩, hall⟩
    conv_lhs => rw [← List.take_append_drop 1 s, ht]

theorem phoneRe_test_eq (s : JSString) :
    (intlPhoneRe.test s || localPhoneRe.test s) = finnishPhone s := by
  rw [Bool.eq_iff_iff]
  simp only [Bool.or_eq_true, intlPhoneRe_test_iff, localPhoneRe_test_iff, finnishPhone,
    Bool.and_eq_true, beq_iff_eq, decide_eq_true_eq, List.all_eq_true]
  tauto

/-! ## The submit handler's loop -/

theorem showErrors_valid (es : List (Field × JSString)) : ∀ (e : Field → JSString) (v : Bool),
    (showErrors es (e, v)).2 = (v && es.all (fun p => p.2.isEmpty)) := by
  induction es with
  | nil => intro e v; simp [showErrors]
  | cons p rest ih =>
    intro e v
    obtain ⟨key, message⟩ := p
    cases message with
    | nil => simp [showErrors, ih]
    | cons c cs => simp [showErrors, ih]

theorem showErrors_slot (k : Field) (m : JSString) (es : List (Field × JSString)) :
    ∀ (e : Field → JSString) (v : Bool),
      (∀ p ∈ es, p.1 = k → p.2 = m) →
      (e k = m ∨ (e k = [] ∧ ∃ p ∈ es, p.1 = k)) →
      (showErrors es (e, v)).1 k = m := by
  induction es with
  | nil =>
    intro e v _ h
    rcases h with h | ⟨_, p, hp, _⟩
    · exact h
    · cases hp
  | cons p rest ih =>
    intro e v hm h
    obtain ⟨key, message⟩ := p
    have hrest : ∀ q ∈ rest, q.1 = k → q.2 = m :=
      fun q hq => hm q (List.mem_cons_of_mem _ hq)
    by_cases hk : k = key
    · have hmsg : message = m := hm (key, message) (List.mem_cons_self _ _) hk.symm
      by_cases hmes : message = []
      · simp only [showErrors, hmes, ne_eq, not_true_eq_false, if_false]
        apply ih e v hrest
        left
        rcases h with h | ⟨h, -⟩
        · exact h
        · rw [h, ← hmsg, hmes]
      · simp only [showErrors, ne_eq, hmes, not_false_eq_true, if_true]
        apply ih _ false hrest
        left
        simp [hk, hmsg]
    · have hstep : ∀ e2 : Field → JSString, e2 k = e k →
          (e2 k = m ∨ (e2 k = [] ∧ ∃ q ∈ rest, q.1 = k)) := by
        intro e2 he2
        rw [he2]
        rcases h with h | ⟨h, q, hq, hqk⟩
        · exact Or.inl h
        · right
          refine ⟨h, q, ?_, hqk⟩
          rcases List.mem_cons.1 hq with rfl | hq
          · exact absurd hqk.symm hk
          · exact hq
      by_cases hmes : message = []
      · simp only [showErrors, hmes, ne_eq, not_true_eq_false, if_false]
        exact ih e v hrest (hstep e rfl)
      · simp only [showErrors, ne_eq, hmes, not_false_eq_true, if_true]
        exact ih _ false hrest
          (hstep (fun k2 => if k2 = key then message else e k2) (if_neg hk))

theorem showErrors_entries_slot (errs : Field → JSString) (v : Bool) (k : Field) :
    (showErrors (entries errs) (fun _ => str "", v)).1 k = errs k := by
  apply showErrors_slot k (errs k)
  · intro p hp hpk
    simp only [entries, List.map_cons, List.map_nil, List.mem_cons, List.mem_singleton,
      List.not_mem_nil, or_false] at hp
    rcases hp with rfl | rfl | rfl | rfl | rfl <;> simp_all
  · right
    refine ⟨rfl, (k, errs k), ?_, rfl⟩
    cases k <;> simp [entries]

theorem showErrors_entries_valid (errs : Field → JSString) :
    (showErrors (entries errs) (fun _ => str "", true)).2 = true ↔ ∀ k, errs k = str "" := by
  rw [showErrors_valid]
  have hnil : str "" = [] := rfl
  simp only [Bool.true_and, List.all_eq_true, entries, List.map_cons, List.map_nil,
    List.mem_cons, List.mem_singleton, List.not_mem_nil, or_false, hnil]
  constructor
  · intro h k
    have := h (k, errs k) (by cases k <;> simp)
    simpa using this
  · rintro h p (rfl | rfl | rfl | rfl | rfl) <;> simp [h]

theorem errors_all_empty_iff (newDate : JSString → Date)
    (tz : TimeZone) (now : Int) (v : FormFields) :
    (∀ k, errors newDate tz now v k = str "") ↔ allValid newDate tz now v := by
  unfold allValid
  constructor
  · intro h
    exact ⟨h .fullName, h .email, h .phone, h .birth, h .terms⟩
  · rintro ⟨h1, h2, h3, h4, h5⟩ k
    cases k <;> simp [errors, *]

theorem shown_valid_iff (newDate : JSString → Date) (tz : TimeZone) (now : Int) (v : FormFields) :
    (showErrors (entries (errors newDate tz now v)) (fun _ => str "", true)).2 = true ↔
      allValid newDate tz now v := by
  rw [showErrors_entries_valid, errors_all_empty_iff]

theorem shown_not_valid (newDate : JSString → Date) (tz : TimeZone) (now : Int) (v : FormFields)
    (h : ¬ allValid newDate tz now v) :
    (showErrors (entries (errors newDate tz now v)) (fun _ => str "", true)).2 = false := by
  cases hc : (showErrors (entries (errors newDate tz now v)) (fun _ => str "", true)).2
  · rfl
  · exact absurd ((shown_valid_iff newDate tz now v).1 hc) h

/-! ## What a submit leaves on the page -/

theorem submit_err (newDate : JSString → Date)
    (tz : TimeZone) (t1 t2 t3 : Int) (p : Page) (k : Field) :
    (submit newDate tz t1 t2 t3 p).err k = errors newDate tz t2 (values p.form) k := by
  rw [← showErrors_entries_slot (errors newDate tz t2 (values p.form)) true k]
  unfold submit setTimestamp
  generalize timestampText t1 = ts1
  generalize timestampText t3 = ts3
  by_cases h : allValid newDate tz t2 (values p.form)
  · simp only [clearErrors, showSuccessMessage, (shown_valid_iff newDate tz t2 _).2 h, Bool.not_true,
      Bool.false_eq_true, if_false]
  · simp only [clearErrors, shown_not_valid newDate tz t2 _ h, Bool.not_false, if_true]

theorem submit_tableBody_of_not_valid (newDate : JSString → Date)
    (tz : TimeZone) (t1 t2 t3 : Int) (p : Page)
    (h : ¬ allValid newDate tz t2 (values p.form)) :
    (submit newDate tz t1 t2 t3 p).tableBody = p.tableBody := by
  unfold submit setTimestamp
  generalize timestampText t1 = ts1
  generalize timestampText t3 = ts3
  simp only [clearErrors, shown_not_valid newDate tz t2 _ h, Bool.not_false, if_true]

theorem submit_form_of_not_valid (newDate : JSString → Date)
    (tz : TimeZone) (t1 t2 t3 : Int) (p : Page)
    (h : ¬ allValid newDate tz t2 (values p.form)) :
    (submit newDate tz t1 t2 t3 p).form = p.form := by
  unfold submit setTimestamp
  generalize timestampText t1 = ts1
  generalize timestampText t3 = ts3
  simp only [clearErrors, shown_not_valid newDate tz t2 _ h, Bool.not_false, if_true]

theorem submit_tableBody_of_valid (newDate : JSString → Date)
    (tz : TimeZone) (t1 t2 t3 : Int) (p : Page)
    (h : allValid newDate tz t2 (values p.form)) :
    (submit newDate tz t1 t2 t3 p).tableBody =
      p.tableBody ++ [rowCells (timestampText t1) (values p.form)] := by
  unfold submit setTimestamp
  generalize timestampText t1 = ts1
  generalize timestampText t3 = ts3
  simp only [clearErrors, showSuccessMessage, (shown_valid_iff newDate tz t2 _).2 h, Bool.not_true,
    Bool.false_eq_true, if_false]

theorem submit_form_of_valid (newDate : JSString → Date) (tz : TimeZone) (t1 t2 t3 : Int) (p : Page)
    (h : allValid newDate tz t2 (values p.form)) :
    (submit newDate tz t1 t2 t3 p).form = p.defaults := by
  unfold submit setTimestamp
  generalize timestampText t1 = ts1
  generalize timestampText t3 = ts3
  simp only [clearErrors, showSuccessMessage, (shown_valid_iff newDate tz t2 _).2 h, Bool.not_true,
    Bool.false_eq_true, if_false]

/-! ## The validators against the specification -/

/-- C4: `validateFullName` answers "Please enter your full name." on an empty
or whitespace-only value, otherwise "Include both first and last name." when
the value has fewer than two whitespace-separated tokens, otherwise "Each name
must have at least 2 characters." when a token has fewer than two code units,
otherwise the empty string; "Jo An" passes and "J An" fails. -/
theorem validateFullName_spec (value : JSString) :
    validateFullName value =
      (if blank value then str "Please enter your full name."
       else if (tokens value).length < 2 then str "Include both first and last name."
       else if (tokens value).any (fun t => t.length < 2) then
         str "Each name must have at least 2 characters."
       else str "") ∧
    validateFullName (str "Jo An") = str "" ∧
    validateFullName (str "J An") = str "Each name must have at least 2 characters." := by
  refine ⟨?_, by decide, by decide⟩
  unfold validateFullName
  by_cases hb : trim value = []
  · have hb2 : blank value = true := (trim_eq_nil_iff_all value).1 hb
    simp [hb, hb2]
  · have hb2 : blank value = false := by
      cases h : blank value with
      | false => rfl
      | true => exact absurd ((trim_eq_nil_iff_all value).2 h) hb
    simp only [hb, if_false, hb2, Bool.false_eq_true, splitWhiteSpace_trim value hb]

/-- C5, as the claim states it, fails on a value of one space: the value is
not empty and is no Finnish number, yet the answer is not the format error. -/
theorem validatePhone_space_counterexample :
    ¬ (validatePhone (str " ") =
      if str " " = [] then str "Please enter your phone number."
      else if finnishPhone (withoutFiller (str " ")) then str ""
      else str "Use Finnish format (+358… or 0…).") := by
  decide

/-- C5 (amended): `validatePhone` answers "Please enter your phone number." on
an empty or whitespace-only value; otherwise, with `s` the value without its
white space, hyphens and parentheses, it answers the empty string exactly when
`s` is `+358` followed by 6 to 12 digits or `0` followed by 5 to 12 digits, and
"Use Finnish format (+358… or 0…)." in every other case. -/
theorem validatePhone_spec (value : JSString) :
    validatePhone value =
      if blank value then str "Please enter your phone number."
      else if finnishPhone (withoutFiller value) then str ""
      else str "Use Finnish format (+358… or 0…)." := by
  unfold validatePhone
  by_cases hb : trim value = []
  · have hb2 : blank value = true := (trim_eq_nil_iff_all value).1 hb
    simp [hb, hb2]
  · have hb2 : blank value = false := by
      cases h : blank value with
      | false => rfl
      | true => exact absurd ((trim_eq_nil_iff_all value).2 h) hb
    simp only [hb, if_false, hb2, Bool.false_eq_true, phoneRe_test_eq,
      removeClass_isPhoneFiller]

/-- C6, as the claim states it, fails: "+35812345" has five digits after
`+358` and gets the format error, not the empty string. -/
theorem validatePhone_five_digits_counterexample :
    ¬ (validatePhone (str "+35812345") = str "") := by
  decide

/-- C6 (amended): "+358123456", six digits after the prefix, passes;
"+35812345", five digits after the prefix, and "+3581" get the format error. -/
theorem validatePhone_boundary :
    validatePhone (str "+358123456") = str "" ∧
    validatePhone (str "+35812345") = str "Use Finnish format (+358… or 0…)." ∧
    validatePhone (str "+3581") = str "Use Finnish format (+358… or 0…)." := by
  decide

/-- C7, as the claim states it, fails twice: "a@b.cd.e" passes although only
one code unit follows its last dot, and a value of one space, which is not
empty and has no "@", gets "Please enter your email." instead of the
invalid-address message. -/
theorem validateEmail_counterexample :
    (validateEmail (str "a@b.cd.e") = str "" ∧
      ¬ 2 ≤ (afterLastDot (str "a@b.cd.e")).length) ∧
    (str " " ≠ [] ∧ (str " ").count 0x40 ≠ 1 ∧
      validateEmail (str " ") ≠ str "Please enter a valid email address.") := by
  decide

/-- C7 (amended): a value `validateEmail` accepts has the shape
`local@domain.rest` with exactly one "@", no white space anywhere, non-empty
`local` and `domain`, and at least two code units after that dot (`rest` may
hold further dots); a value that is not blank and not of that shape gets
"Please enter a valid email address."; a blank value gets "Please enter your
email.". -/
theorem validateEmail_spec (value : JSString) :
    (validateEmail value = str "" →
      EmailShape value ∧ value.count 0x40 = 1 ∧ ∀ c ∈ value, isWhiteSpace c = false) ∧
    (blank value = false → ¬ EmailShape value →
      validateEmail value = str "Please enter a valid email address.") ∧
    (blank value = true → validateEmail value = str "Please enter your email.") := by
  refine ⟨?_, ?_, ?_⟩
  · intro h
    have hs := (validateEmail_eq_nil_iff value).1 h
    exact ⟨hs, emailShape_count value hs⟩
  · intro hb hs
    exact validateEmail_of_not_shape value hb hs
  · intro hb
    have hb2 : trim value = [] := (trim_eq_nil_iff_all value).2 hb
    unfold validateEmail
    simp [hb2]

theorem validateEmail_spec_witness :
    EmailShape (str "a@b.co") ∧ (str "a@b.co").count 0x40 = 1 ∧
      ∀ c ∈ str "a@b.co", isWhiteSpace c = false :=
  (validateEmail_spec (str "a@b.co")).1 (by decide)

/-- C8: for non-empty `l`, `d`, `t` without "@", white space or dot,
`validateEmail (l@d.t)` is the empty string exactly when `t` has at least two
code units ("a@b.co" passes, "a@b.c" fails); and every value that is not blank
and has no "@", such as "a.com", gets "Please enter a valid email address.". -/
theorem validateEmail_plain_parts (l d t : JSString) (hl : l ≠ []) (hd : d ≠ [])
    (_ht : t ≠ []) (hall : ∀ c ∈ l ++ d ++ t, c ≠ 0x40 ∧ isWhiteSpace c = false ∧ c ≠ 0x2E) :
    (validateEmail (l ++ str "@" ++ d ++ str "." ++ t) = str "" ↔ 2 ≤ t.length) ∧
    (∀ v : JSString, blank v = false → 0x40 ∉ v →
      validateEmail v = str "Please enter a valid email address.") ∧
    validateEmail (str "a@b.co") = str "" ∧
    validateEmail (str "a@b.c") = str "Please enter a valid email address." ∧
    validateEmail (str "a.com") = str "Please enter a valid email address." := by
  have hat : str "@" = [0x40] := by decide
  have hdot : str "." = [0x2E] := by decide
  refine ⟨?_, ?_, by decide, by decide, by decide⟩
  · rw [validateEmail_eq_nil_iff, hat, hdot]
    have e : l ++ [0x40] ++ d ++ [0x2E] ++ t = l ++ 0x40 :: (d ++ 0x2E :: t) := by simp
    rw [e]
    constructor
    · rintro ⟨l2, d2, t2, heq, -, -, ht2, -⟩
      have hl0 : (0x40 : Nat) ∉ l := fun hc => (hall _ (by simp [hc])).1 rfl
      have hr0 : (0x40 : Nat) ∉ d ++ 0x2E :: t := by
        intro hc
        simp only [List.mem_append, List.mem_cons] at hc
        rcases hc with hc | hc | hc
        · exact (hall _ (by simp [hc])).1 rfl
        · cases hc
        · exact (hall _ (by simp [hc])).1 rfl
      obtain ⟨-, -, hr⟩ := (List.append_cons_inj_of_not_mem hl0 hr0).1 heq
      have hd0 : (0x2E : Nat) ∉ d := fun hc => (hall _ (by simp [hc])).2.2 rfl
      have ht0 : (0x2E : Nat) ∉ t := fun hc => (hall _ (by simp [hc])).2.2 rfl
      obtain ⟨-, -, hteq⟩ := (List.append_cons_inj_of_not_mem hd0 ht0).1 hr
      rw [hteq]
      exact ht2
    · intro ht2
      refine ⟨l, d, t, rfl, hl, hd, ht2, ?_⟩
      intro c hc
      exact ⟨(hall c hc).1, (hall c hc).2.1⟩
  · intro v hb hv
    apply validateEmail_of_not_shape v hb
    rintro ⟨l2, d2, t2, rfl, -⟩
    exact hv (by simp)

theorem validateEmail_plain_parts_witness :
    (validateEmail (str "a" ++ str "@" ++ str "b" ++ str "." ++ str "co") = str "" ↔
      2 ≤ (str "co").length) :=
  (validateEmail_plain_parts (str "a") (str "b") (str "co") (by decide) (by decide)
    (by decide) (by decide)).1

/-! ## Calendar arithmetic -/

theorem DayFromYear_add_le_succ (y : Int) : DayFromYear y + 365 ≤ DayFromYear (y + 1) := by
  unfold DayFromYear
  omega

/-- The year found for a day number is the year that contains it. -/
theorem yearFromDay_spec (d : Int) :
    DayFromYear (yearFromDay d) ≤ d ∧ d < DayFromYear (yearFromDay d + 1) := by
  unfold yearFromDay
  simp only []
  split_ifs with h1 h2
  · rw [Int.sub_add_cancel]
    refine ⟨?_, h1⟩
    unfold DayFromYear at *
    omega
  · refine ⟨h2, ?_⟩
    unfold DayFromYear at *
    omega
  · exact ⟨by omega, by omega⟩

/-! ## The submit handler against the specification -/

/-- C1: whatever the page, the time zone and the clock readings, a submit
appends a row to the table if and only if all five validators return the empty
string on the snapshot `values` the handler reads from the form. -/
theorem submit_appends_iff_allValid (newDate : JSString → Date)
    (tz : TimeZone) (t1 t2 t3 : Int) (p : Page) :
    (∃ row, (submit newDate tz t1 t2 t3 p).tableBody = p.tableBody ++ [row]) ↔
      allValid newDate tz t2 (values p.form) := by
  constructor
  · rintro ⟨row, hrow⟩
    by_contra h
    rw [submit_tableBody_of_not_valid newDate tz t1 t2 t3 p h] at hrow
    have := congrArg List.length hrow
    simp at this
  · intro h
    exact ⟨_, submit_tableBody_of_valid newDate tz t1 t2 t3 p h⟩

/-- C2: whatever the error slots held before, after a submit each of the five
error slots holds exactly what its validator returned for the snapshot (its
message when it rejects, the empty string when it accepts), all five at once;
and when some validator rejects, the table is left as it was. -/
theorem submit_shows_every_message (newDate : JSString → Date)
    (tz : TimeZone) (t1 t2 t3 : Int) (p : Page) :
    (submit newDate tz t1 t2 t3 p).err .fullName = validateFullName (values p.form).fullName ∧
    (submit newDate tz t1 t2 t3 p).err .email = validateEmail (values p.form).email ∧
    (submit newDate tz t1 t2 t3 p).err .phone = validatePhone (values p.form).phone ∧
    (submit newDate tz t1 t2 t3 p).err .birth = validateBirth newDate tz t2 (values p.form).birth ∧
    (submit newDate tz t1 t2 t3 p).err .terms = validateTerms (values p.form).terms ∧
    (¬ allValid newDate tz t2 (values p.form) → (submit newDate tz t1 t2 t3 p).tableBody = p.tableBody) :=
  ⟨submit_err newDate tz t1 t2 t3 p .fullName, submit_err newDate tz t1 t2 t3 p .email,
    submit_err newDate tz t1 t2 t3 p .phone, submit_err newDate tz t1 t2 t3 p .birth,
    submit_err newDate tz t1 t2 t3 p .terms, submit_tableBody_of_not_valid newDate tz t1 t2 t3 p⟩

theorem submit_shows_every_message_witness :
    (submit isoDateOnly (fun _ => 0) 1749920400000 1749920400000 1749920400000 rejectedPage).tableBody =
      rejectedPage.tableBody :=
  (submit_shows_every_message isoDateOnly (fun _ => 0) 1749920400000 1749920400000 1749920400000
    rejectedPage).2.2.2.2.2 (by decide)

/-- C3: when all five validators accept the snapshot, one submit appends exactly
one row, whose six cells are, in order, the timestamp, the full name, the
e-mail, the phone, the birth value as entered, and "Yes" or "No" for the terms;
afterwards all five error slots are empty and the form fields are back at their
defaults. -/
theorem submit_valid_row (newDate : JSString → Date) (tz : TimeZone) (t1 t2 t3 : Int) (p : Page)
    (h : allValid newDate tz t2 (values p.form)) :
    (submit newDate tz t1 t2 t3 p).tableBody =
      p.tableBody ++ [[timestampText t1, (values p.form).fullName, (values p.form).email,
        (values p.form).phone, (values p.form).birth,
        if (values p.form).terms then str "Yes" else str "No"]] ∧
    (∀ k, (submit newDate tz t1 t2 t3 p).err k = str "") ∧
    (submit newDate tz t1 t2 t3 p).form = p.defaults := by
  refine ⟨submit_tableBody_of_valid newDate tz t1 t2 t3 p h, ?_, submit_form_of_valid newDate tz t1 t2 t3 p h⟩
  intro k
  rw [submit_err]
  exact (errors_all_empty_iff newDate tz t2 _).2 h k

theorem submit_valid_row_witness :
    (submit isoDateOnly (fun _ => 0) 1749920400000 1749920400000 1749920400000 samplePage).tableBody =
      samplePage.tableBody ++ [[timestampText 1749920400000, (values samplePage.form).fullName,
        (values samplePage.form).email, (values samplePage.form).phone,
        (values samplePage.form).birth,
        if (values samplePage.form).terms then str "Yes" else str "No"]] ∧
    (∀ k, (submit isoDateOnly (fun _ => 0) 1749920400000 1749920400000 1749920400000 samplePage).err k
      = str "") ∧
    (submit isoDateOnly (fun _ => 0) 1749920400000 1749920400000 1749920400000 samplePage).form =
      samplePage.defaults :=
  submit_valid_row isoDateOnly (fun _ => 0) 1749920400000 1749920400000 1749920400000 samplePage
    (by decide)

/-! ## The clear button and the frame of a submit -/

theorem clear_tableBody (now : Int) (p : Page) : (clear now p).tableBody = p.tableBody := by
  simp only [clear, setTimestamp, clearErrors]

theorem clear_err (now : Int) (p : Page) (k : Field) : (clear now p).err k = str "" := by
  simp only [clear, setTimestamp, clearErrors]

theorem clear_form (now : Int) (p : Page) : (clear now p).form = p.form := by
  simp only [clear, setTimestamp, clearErrors]

theorem submit_frame_of_not_valid (newDate : JSString → Date)
    (tz : TimeZone) (t1 t2 t3 : Int) (p : Page)
    (h : ¬ allValid newDate tz t2 (values p.form)) :
    (submit newDate tz t1 t2 t3 p).defaults = p.defaults ∧
    (submit newDate tz t1 t2 t3 p).successText = p.successText ∧
    (submit newDate tz t1 t2 t3 p).successOpacity = p.successOpacity ∧
    (submit newDate tz t1 t2 t3 p).timestamp = timestampText t1 := by
  unfold submit setTimestamp
  generalize timestampText t1 = ts1
  generalize timestampText t3 = ts3
  simp only [clearErrors, shown_not_valid newDate tz t2 _ h, Bool.not_false, if_true, and_self]

/-- C11: on every page the clear action leaves the table as it was and all five
error slots empty, and a second clear action leaves the same table and error
slots as the first. -/
theorem clear_blanks_errors (now now2 : Int) (p : Page) :
    (clear now p).tableBody = p.tableBody ∧
    (∀ k, (clear now p).err k = str "") ∧
    (clear now2 (clear now p)).tableBody = (clear now p).tableBody ∧
    (∀ k, (clear now2 (clear now p)).err k = (clear now p).err k) := by
  refine ⟨clear_tableBody now p, clear_err now p, clear_tableBody now2 _, ?_⟩
  intro k
  rw [clear_err, clear_err]

/-- C12: when some validator rejects the snapshot, a submit leaves the five form
fields exactly as entered and the table unchanged; the form defaults and the
success notice stay as they were too, so only the error slots and the
timestamp field change. -/
theorem submit_rejected_frame (newDate : JSString → Date)
    (tz : TimeZone) (t1 t2 t3 : Int) (p : Page)
    (h : ¬ allValid newDate tz t2 (values p.form)) :
    (submit newDate tz t1 t2 t3 p).form = p.form ∧
    (submit newDate tz t1 t2 t3 p).tableBody = p.tableBody ∧
    (submit newDate tz t1 t2 t3 p).defaults = p.defaults ∧
    (submit newDate tz t1 t2 t3 p).successText = p.successText ∧
    (submit newDate tz t1 t2 t3 p).successOpacity = p.successOpacity :=
  ⟨submit_form_of_not_valid newDate tz t1 t2 t3 p h, submit_tableBody_of_not_valid newDate tz t1 t2 t3 p h,
    (submit_frame_of_not_valid newDate tz t1 t2 t3 p h).1, (submit_frame_of_not_valid newDate tz t1 t2 t3 p h).2.1,
    (submit_frame_of_not_valid newDate tz t1 t2 t3 p h).2.2.1⟩

theorem submit_rejected_frame_witness :
    (submit isoDateOnly (fun _ => 0) 1749920400000 1749920400000 1749920400000 rejectedPage).form =
      rejectedPage.form ∧
    (submit isoDateOnly (fun _ => 0) 1749920400000 1749920400000 1749920400000 rejectedPage).tableBody =
      rejectedPage.tableBody ∧
    (submit isoDateOnly (fun _ => 0) 1749920400000 1749920400000 1749920400000 rejectedPage).defaults =
      rejectedPage.defaults ∧
    (submit isoDateOnly (fun _ => 0) 1749920400000 1749920400000 1749920400000 rejectedPage).successText =
      rejectedPage.successText ∧
    (submit isoDateOnly (fun _ => 0) 1749920400000 1749920400000 1749920400000 rejectedPage).successOpacity =
      rejectedPage.successOpacity :=
  submit_rejected_frame isoDateOnly (fun _ => 0) 1749920400000 1749920400000 1749920400000 rejectedPage
    (by decide)

/-! ## Sequences of events -/

theorem handle_tableBody (newDate : JSString → Date) (tz : TimeZone) (p : Page) (e : Event) :
    (handle newDate tz p e).tableBody = p.tableBody ∨
      ∃ t1 t2, allValid newDate tz t2 (values p.form) ∧
        (handle newDate tz p e).tableBody =
          p.tableBody ++ [rowCells (timestampText t1) (values p.form)] := by
  cases e with
  | input form => left; rfl
  | submit t1 t2 t3 =>
    by_cases h : allValid newDate tz t2 (values p.form)
    · right
      exact ⟨t1, t2, h, submit_tableBody_of_valid newDate tz t1 t2 t3 p h⟩
    · left
      exact submit_tableBody_of_not_valid newDate tz t1 t2 t3 p h
  | clear now => left; exact clear_tableBody now p
  | fade => left; rfl

theorem run_append (newDate : JSString → Date)
    (tz : TimeZone) (p : Page) (es : List Event) (e : Event) :
    run newDate tz p (es ++ [e]) = handle newDate tz (run newDate tz p es) e := by
  simp [run, List.foldl_append]

theorem rowCells_of_allValid (newDate : JSString → Date)
    (tz : TimeZone) (now : Int) (ts : JSString) (v : FormFields)
    (h : allValid newDate tz now v) : (rowCells ts v).get? 5 = some (str "Yes") := by
  have ht : v.terms = true := by
    cases hterms : v.terms with
    | true => rfl
    | false =>
      have h5 := h.2.2.2.2
      rw [hterms] at h5
      exact absurd h5 (by decide)
  simp [rowCells, ht]

theorem validatePhone_of_not_blank (v : JSString) (hb : blank v = false) :
    validatePhone v =
      if finnishPhone (withoutFiller v) then str ""
      else str "Use Finnish format (+358… or 0…)." := by
  unfold validatePhone
  simp only [trim_ne_nil_of_not_blank v hb, if_false, phoneRe_test_eq,
    removeClass_isPhoneFiller]

/-- C13: after any event (a change of the form fields, a submit, a clear
action, the fade timer) the rows the table had are still there, unchanged and
in the same order, as a prefix of the table, which has grown by at most one
row; so the same prefix property holds after any sequence of events. -/
theorem table_rows_persist (newDate : JSString → Date) (tz : TimeZone) (p : Page) :
    (∀ e : Event, p.tableBody <+: (handle newDate tz p e).tableBody ∧
      (handle newDate tz p e).tableBody.length ≤ p.tableBody.length + 1) ∧
    (∀ es : List Event, p.tableBody <+: (run newDate tz p es).tableBody) := by
  have hstep : ∀ (q : Page) (e : Event), q.tableBody <+: (handle newDate tz q e).tableBody ∧
      (handle newDate tz q e).tableBody.length ≤ q.tableBody.length + 1 := by
    intro q e
    rcases handle_tableBody newDate tz q e with h | ⟨t1, t2, _, h⟩
    · rw [h]
      exact ⟨List.prefix_refl _, Nat.le_succ _⟩
    · rw [h]
      exact ⟨List.prefix_append _ _, by simp⟩
  refine ⟨hstep p, ?_⟩
  intro es
  induction es using List.reverseRecOn with
  | nil => exact List.prefix_refl _
  | append_singleton es e ih =>
    rw [run_append]
    exact ih.trans (hstep _ e).1

/-- C15: starting from an empty table, after any sequence of events every row
of the table has "Yes" as its sixth cell: a row is appended only when
`validateTerms` accepted, that is when the checkbox was ticked. -/
theorem rows_all_yes (newDate : JSString → Date)
    (tz : TimeZone) (p : Page) (es : List Event) (h : p.tableBody = []) :
    ∀ row ∈ (run newDate tz p es).tableBody, row.get? 5 = some (str "Yes") := by
  induction es using List.reverseRecOn with
  | nil =>
    intro row hrow
    simp only [run, List.foldl_nil, h, List.not_mem_nil] at hrow
  | append_singleton es e ih =>
    intro row hrow
    rw [run_append] at hrow
    rcases handle_tableBody newDate tz (run newDate tz p es) e with heq | ⟨t1, t2, hv, heq⟩
    · rw [heq] at hrow
      exact ih row hrow
    · rw [heq, List.mem_append, List.mem_singleton] at hrow
      rcases hrow with hrow | rfl
      · exact ih row hrow
      · exact rowCells_of_allValid newDate tz t2 _ _ hv

theorem rows_all_yes_witness :
    (run isoDateOnly (fun _ => 0) emptyTablePage sampleSession).tableBody.length = 2 ∧
    ∀ row ∈ (run isoDateOnly (fun _ => 0) emptyTablePage sampleSession).tableBody,
      row.get? 5 = some (str "Yes") :=
  ⟨by decide, rows_all_yes isoDateOnly (fun _ => 0) emptyTablePage sampleSession (by decide)⟩

/-- C17: two phone values that each hold a code unit that is not white space,
and that are equal once white space, hyphens and parentheses are removed, get
the same answer from `validatePhone`; "(040) 123-4567" and "0401234567" do. -/
theorem validatePhone_filler_invariant (v w : JSString) (hv : blank v = false)
    (hw : blank w = false) (h : withoutFiller v = withoutFiller w) :
    validatePhone v = validatePhone w ∧
    validatePhone (str "(040) 123-4567") = validatePhone (str "0401234567") := by
  refine ⟨?_, by decide⟩
  rw [validatePhone_of_not_blank v hv, validatePhone_of_not_blank w hw, h]

theorem validatePhone_filler_invariant_witness :
    validatePhone (str "+358 (40) 123-4567") = validatePhone (str "+358401234567") ∧
    validatePhone (str "(040) 123-4567") = validatePhone (str "0401234567") :=
  validatePhone_filler_invariant (str "+358 (40) 123-4567") (str "+358401234567")
    (by decide) (by decide) (by decide)

/-- C18: whatever the engine, on a non-empty birth value from which its
`new Date` makes an invalid date, `validateBirth` returns the empty string: the
comparisons with `NaN` in the future check and in the age check are all false. -/
theorem validateBirth_invalid_date (newDate : JSString → Date)
    (tz : TimeZone) (now : Int) (value : JSString)
    (hne : value ≠ []) (hinv : newDate value = none) :
    validateBirth newDate tz now value = str "" := by
  unfold validateBirth
  simp [hne, hinv, Num.lt, Num.sub, Num.eq, getFullYear, getMonth, getDate]

theorem validateBirth_invalid_date_witness :
    validateBirth isoDateOnly (fun _ => 0) 1749920400000 (str "not a date") = str "" :=
  validateBirth_invalid_date isoDateOnly (fun _ => 0) 1749920400000 (str "not a date")
    (by decide) (by decide)

/-! ## Years, months and days of a time value -/

theorem DayFromYear_succ (y : Int) : DayFromYear (y + 1) = DayFromYear y + DaysInYear y := by
  unfold DayFromYear DaysInYear
  split_ifs <;> omega

theorem DaysInYear_cases (y : Int) : DaysInYear y = 365 ∨ DaysInYear y = 366 := by
  unfold DaysInYear
  split_ifs <;> simp

theorem DayFromYear_add_le (y : Int) (n : Nat) :
    DayFromYear y + 365 * n ≤ DayFromYear (y + n) := by
  induction n with
  | zero => simp
  | succ n ih =>
    have h := DayFromYear_succ (y + n)
    have h2 := DaysInYear_cases (y + n)
    have e : y + ((n + 1 : Nat) : Int) = y + n + 1 := by push_cast; ring
    rw [e, h]
    push_cast
    omega

theorem DayFromYear_mono {y z : Int} (h : y ≤ z) : DayFromYear y ≤ DayFromYear z := by
  obtain ⟨n, rfl⟩ := Int.le.dest h
  have := DayFromYear_add_le y n
  omega

theorem yearFromDay_unique (d y : Int) (h1 : DayFromYear y ≤ d) (h2 : d < DayFromYear (y + 1)) :
    yearFromDay d = y := by
  obtain ⟨h3, h4⟩ := yearFromDay_spec d
  by_contra hne
  rcases lt_or_gt_of_ne hne with hlt | hgt
  · have := DayFromYear_mono (show yearFromDay d + 1 ≤ y by omega)
    omega
  · have := DayFromYear_mono (show y + 1 ≤ yearFromDay d by omega)
    omega

theorem yearFromDay_mono {d e : Int} (h : d ≤ e) : yearFromDay d ≤ yearFromDay e := by
  obtain ⟨h1, _⟩ := yearFromDay_spec d
  obtain ⟨_, h4⟩ := yearFromDay_spec e
  by_contra hlt
  have := DayFromYear_mono (show yearFromDay e + 1 ≤ yearFromDay d by omega)
  omega

theorem DayWithinYear_bounds (t : Int) :
    0 ≤ DayWithinYear t ∧ DayWithinYear t < 365 + InLeapYear t := by
  unfold DayWithinYear InLeapYear YearFromTime
  obtain ⟨h1, h2⟩ := yearFromDay_spec (Day t)
  rw [DayFromYear_succ] at h2
  have h3 := DaysInYear_cases (yearFromDay (Day t))
  split_ifs <;> omega

theorem month_aux (d l m : Int)
    (hm : m =
      if d < 31 then 0 else if d < 59 + l then 1 else if d < 90 + l then 2
      else if d < 120 + l then 3 else if d < 151 + l then 4 else if d < 181 + l then 5
      else if d < 212 + l then 6 else if d < 243 + l then 7 else if d < 273 + l then 8
      else if d < 304 + l then 9 else if d < 334 + l then 10 else 11) :
    (m = 0 ∧ d < 31) ∨
    (m = 1 ∧ 31 ≤ d ∧ d < 59 + l) ∨
    (m = 2 ∧ 59 + l ≤ d ∧ d < 90 + l) ∨
    (m = 3 ∧ 90 + l ≤ d ∧ d < 120 + l) ∨
    (m = 4 ∧ 120 + l ≤ d ∧ d < 151 + l) ∨
    (m = 5 ∧ 151 + l ≤ d ∧ d < 181 + l) ∨
    (m = 6 ∧ 181 + l ≤ d ∧ d < 212 + l) ∨
    (m = 7 ∧ 212 + l ≤ d ∧ d < 243 + l) ∨
    (m = 8 ∧ 243 + l ≤ d ∧ d < 273 + l) ∨
    (m = 9 ∧ 273 + l ≤ d ∧ d < 304 + l) ∨
    (m = 10 ∧ 304 + l ≤ d ∧ d < 334 + l) ∨
    (m = 11 ∧ 334 + l ≤ d) := by
  by_cases h0 : d < 31
  · rw [if_pos h0] at hm
    left
    exact ⟨hm, h0⟩
  rw [if_neg h0] at hm
  by_cases h1 : d < 59 + l
  · rw [if_pos h1] at hm
    right; left
    exact ⟨hm, by omega, h1⟩
  rw [if_neg h1] at hm
  by_cases h2 : d < 90 + l
  · rw [if_pos h2] at hm
    right; right; left
    exact ⟨hm, by omega, h2⟩
  rw [if_neg h2] at hm
  by_cases h3 : d < 120 + l
  · rw [if_pos h3] at hm
    right; right; right; left
    exact ⟨hm, by omega, h3⟩
  rw [if_neg h3] at hm
  by_cases h4 : d < 151 + l
  · rw [if_pos h4] at hm
    right; right; right; right; left
    exact ⟨hm, by omega, h4⟩
  rw [if_neg h4] at hm
  by_cases h5 : d < 181 + l
  · rw [if_pos h5] at hm
    right; right; right; right; right; left
    exact ⟨hm, by omega, h5⟩
  rw [if_neg h5] at hm
  by_cases h6 : d < 212 + l
  · rw [if_pos h6] at hm
    right; right; right; right; right; right; left
    exact ⟨hm, by omega, h6⟩
  rw [if_neg h6] at hm
  by_cases h7 : d < 243 + l
  · rw [if_pos h7] at hm
    right; right; right; right; right; right; right; left
    exact ⟨hm, by omega, h7⟩
  rw [if_neg h7] at hm
  by_cases h8 : d < 273 + l
  · rw [if_pos h8] at hm
    right; right; right; right; right; right; right; right; left
    exact ⟨hm, by omega, h8⟩
  rw [if_neg h8] at hm
  by_cases h9 : d < 304 + l
  · rw [if_pos h9] at hm
    right; right; right; right; right; right; right; right; right; left
    exact ⟨hm, by omega, h9⟩
  rw [if_neg h9] at hm
  by_cases h10 : d < 334 + l
  · rw [if_pos h10] at hm
    right; right; right; right; right; right; right; right; right; right; left
    exact ⟨hm, by omega, h10⟩
  rw [if_neg h10] at hm
  right; right; right; right; right; right; right; right; right; right; right
  exact ⟨hm, by omega⟩

theorem date_aux (d l m dt : Int)
    (hdt : dt = match m with
      | 0 => d + 1
      | 1 => d - 30
      | 2 => d - 58 - l
      | 3 => d - 89 - l
      | 4 => d - 119 - l
      | 5 => d - 150 - l
      | 6 => d - 180 - l
      | 7 => d - 211 - l
      | 8 => d - 242 - l
      | 9 => d - 272 - l
      | 10 => d - 303 - l
      | _ => d - 333 - l) :
    (m = 0 → dt = d + 1) ∧ (m = 1 → dt = d - 30) ∧ (m = 2 → dt = d - 58 - l) ∧
    (m = 3 → dt = d - 89 - l) ∧ (m = 4 → dt = d - 119 - l) ∧ (m = 5 → dt = d - 150 - l) ∧
    (m = 6 → dt = d - 180 - l) ∧ (m = 7 → dt = d - 211 - l) ∧ (m = 8 → dt = d - 242 - l) ∧
    (m = 9 → dt = d - 272 - l) ∧ (m = 10 → dt = d - 303 - l) ∧ (m = 11 → dt = d - 333 - l) := by
  refine ⟨?_, ?_, ?_, ?_, ?_, ?_, ?_, ?_, ?_, ?_, ?_, ?_⟩ <;> (intro h; subst h; exact hdt)

/-- The month and the day of the month, read off the day within the year. -/
theorem month_date_cases (t : Int) :
    (MonthFromTime t = 0 ∧ DateFromTime t = DayWithinYear t + 1 ∧ DayWithinYear t < 31) ∨
    (MonthFromTime t = 1 ∧ DateFromTime t = DayWithinYear t - 30 ∧
      31 ≤ DayWithinYear t ∧ DayWithinYear t < 59 + InLeapYear t) ∨
    (MonthFromTime t = 2 ∧ DateFromTime t = DayWithinYear t - 58 - InLeapYear t ∧
      59 + InLeapYear t ≤ DayWithinYear t ∧ DayWithinYear t < 90 + InLeapYear t) ∨
    (MonthFromTime t = 3 ∧ DateFromTime t = DayWithinYear t - 89 - InLeapYear t ∧
      90 + InLeapYear t ≤ DayWithinYear t ∧ DayWithinYear t < 120 + InLeapYear t) ∨
    (MonthFromTime t = 4 ∧ DateFromTime t = DayWithinYear t - 119 - InLeapYear t ∧
      120 + InLeapYear t ≤ DayWithinYear t ∧ DayWithinYear t < 151 + InLeapYear t) ∨
    (MonthFromTime t = 5 ∧ DateFromTime t = DayWithinYear t - 150 - InLeapYear t ∧
      151 + InLeapYear t ≤ DayWithinYear t ∧ DayWithinYear t < 181 + InLeapYear t) ∨
    (MonthFromTime t = 6 ∧ DateFromTime t = DayWithinYear t - 180 - InLeapYear t ∧
      181 + InLeapYear t ≤ DayWithinYear t ∧ DayWithinYear t < 212 + InLeapYear t) ∨
    (MonthFromTime t = 7 ∧ DateFromTime t = DayWithinYear t - 211 - InLeapYear t ∧
      212 + InLeapYear t ≤ DayWithinYear t ∧ DayWithinYear t < 243 + InLeapYear t) ∨
    (MonthFromTime t = 8 ∧ DateFromTime t = DayWithinYear t - 242 - InLeapYear t ∧
      243 + InLeapYear t ≤ DayWithinYear t ∧ DayWithinYear t < 273 + InLeapYear t) ∨
    (MonthFromTime t = 9 ∧ DateFromTime t = DayWithinYear t - 272 - InLeapYear t ∧
      273 + InLeapYear t ≤ DayWithinYear t ∧ DayWithinYear t < 304 + InLeapYear t) ∨
    (MonthFromTime t = 10 ∧ DateFromTime t = DayWithinYear t - 303 - InLeapYear t ∧
      304 + InLeapYear t ≤ DayWithinYear t ∧ DayWithinYear t < 334 + InLeapYear t) ∨
    (MonthFromTime t = 11 ∧ DateFromTime t = DayWithinYear t - 333 - InLeapYear t ∧
      334 + InLeapYear t ≤ DayWithinYear t) := by
  have hdt := date_aux (DayWithinYear t) (InLeapYear t) (MonthFromTime t) (DateFromTime t) rfl
  rcases month_aux (DayWithinYear t) (InLeapYear t) (MonthFromTime t) rfl with
    h | h | h | h | h | h | h | h | h | h | h | h
  · left
    exact ⟨h.1, hdt.1 h.1, h.2⟩
  · right; left
    exact ⟨h.1, hdt.2.1 h.1, h.2⟩
  · right; right; left
    exact ⟨h.1, hdt.2.2.1 h.1, h.2⟩
  · right; right; right; left
    exact ⟨h.1, hdt.2.2.2.1 h.1, h.2⟩
  · right; right; right; right; left
    exact ⟨h.1, hdt.2.2.2.2.1 h.1, h.2⟩
  · right; right; right; right; right; left
    exact ⟨h.1, hdt.2.2.2.2.2.1 h.1, h.2⟩
  · right; right; right; right; right; right; left
    exact ⟨h.1, hdt.2.2.2.2.2.2.1 h.1, h.2⟩
  · right; right; right; right; right; right; right; left
    exact ⟨h.1, hdt.2.2.2.2.2.2.2.1 h.1, h.2⟩
  · right; right; right; right; right; right; right; right; left
    exact ⟨h.1, hdt.2.2.2.2.2.2.2.2.1 h.1, h.2⟩
  · right; right; right; right; right; right; right; right; right; left
    exact ⟨h.1, hdt.2.2.2.2.2.2.2.2.2.1 h.1, h.2⟩
  · right; right; right; right; right; right; right; right; right; right; left
    exact ⟨h.1, hdt.2.2.2.2.2.2.2.2.2.2.1 h.1, h.2⟩
  · right; right; right; right; right; right; right; right; right; right; right
    exact ⟨h.1, hdt.2.2.2.2.2.2.2.2.2.2.2 h.1, h.2⟩

theorem InLeapYear_cases (t : Int) : InLeapYear t = 0 ∨ InLeapYear t = 1 := by
  unfold InLeapYear
  split_ifs <;> simp

theorem MonthFromTime_bounds (t : Int) : 0 ≤ MonthFromTime t ∧ MonthFromTime t ≤ 11 := by
  rcases month_date_cases t with h | h | h | h | h | h | h | h | h | h | h | h <;>
    (rw [h.1]; decide)

theorem DateFromTime_bounds (t : Int) : 1 ≤ DateFromTime t ∧ DateFromTime t ≤ 31 := by
  have hb := DayWithinYear_bounds t
  have hl := InLeapYear_cases t
  rcases month_date_cases t with h | h | h | h | h | h | h | h | h | h | h | h <;>
    (rw [h.2.1]; omega)

/-- A later day has a later or equal (year, month, day). -/
theorem ymd_mono (x y : Int) (h : Day x ≤ Day y) :
    lexLe (YearFromTime x, MonthFromTime x, DateFromTime x)
      (YearFromTime y, MonthFromTime y, DateFromTime y) := by
  have hy : YearFromTime x ≤ YearFromTime y := yearFromDay_mono h
  unfold lexLe
  rcases lt_or_eq_of_le hy with hlt | heq
  · exact Or.inl hlt
  · right
    refine ⟨heq, ?_⟩
    have hl : InLeapYear x = InLeapYear y := by
      unfold InLeapYear
      rw [heq]
    have hd : DayWithinYear x ≤ DayWithinYear y := by
      unfold DayWithinYear
      rw [heq]
      omega
    have hlx := InLeapYear_cases x
    have cx := month_date_cases x
    have cy := month_date_cases y
    rw [← hl] at cy
    simp only []
    generalize MonthFromTime x = mx at cx ⊢
    generalize MonthFromTime y = my at cy ⊢
    generalize DateFromTime x = dx at cx ⊢
    generalize DateFromTime y = dy at cy ⊢
    generalize DayWithinYear x = wx at cx hd
    generalize DayWithinYear y = wy at cy hd
    generalize InLeapYear x = l at cx cy hlx
    rcases cx with h | h | h | h | h | h | h | h | h | h | h | h <;>
      rcases cy with g | g | g | g | g | g | g | g | g | g | g | g <;> omega

/-! ## Acceptance of a birth date -/

theorem isoDateOnly_reads : ReadsDateOnly isoDateOnly := by
  intro value y m d h
  simp [isoDateOnly, h]

/-- The answer of `validateBirth` on a value the engine reads as the time
value `b`, through the age the script computes with the local getters. -/
theorem validateBirth_of_date (newDate : JSString → Date) (tz : TimeZone) (now : Int)
    (value : JSString) (b : Int) (hne : value ≠ []) (hb : newDate value = some b) :
    validateBirth newDate tz now value =
      if now < b then str "Birth date cannot be in the future."
      else if ageByGetters tz now b < 13 then str "You must be at least 13 years old."
      else str "" := by
  unfold validateBirth
  simp only [hne, if_false, hb, Num.lt, Num.sub, Num.eq, getFullYear, getMonth, getDate,
    Option.map_some', decide_eq_true_eq, ageByGetters, gettersMonthDayPrecedes]
  by_cases hfut : now < b
  · simp only [hfut, if_true]
  · simp only [hfut, if_false]
    have hm : (decide (MonthFromTime (LocalTime tz now) - MonthFromTime (LocalTime tz b) < 0) ||
        (decide (MonthFromTime (LocalTime tz now) - MonthFromTime (LocalTime tz b) = 0) &&
          decide (DateFromTime (LocalTime tz now) < DateFromTime (LocalTime tz b)))) =
        (decide (MonthFromTime (LocalTime tz now) < MonthFromTime (LocalTime tz b)) ||
        (decide (MonthFromTime (LocalTime tz now) = MonthFromTime (LocalTime tz b)) &&
          decide (DateFromTime (LocalTime tz now) < DateFromTime (LocalTime tz b)))) := by
      rw [Bool.eq_iff_iff]
      simp only [Bool.or_eq_true, Bool.and_eq_true, decide_eq_true_eq]
      constructor
      · rintro (h | ⟨h1, h2⟩)
        · left; omega
        · right; exact ⟨by omega, h2⟩
      · rintro (h | ⟨h1, h2⟩)
        · left; omega
        · right; exact ⟨by omega, h2⟩
    rw [hm]
    split_ifs <;> simp_all [Num.sub, Num.lt]

theorem validateBirth_accepts_iff (newDate : JSString → Date) (tz : TimeZone) (now : Int)
    (value : JSString) (b : Int) (hne : value ≠ []) (hb : newDate value = some b) :
    validateBirth newDate tz now value = str "" ↔ (¬ now < b ∧ 13 ≤ ageByGetters tz now b) := by
  rw [validateBirth_of_date newDate tz now value b hne hb]
  have h1 : str "Birth date cannot be in the future." ≠ str "" := by decide
  have h2 : str "You must be at least 13 years old." ≠ str "" := by decide
  by_cases hfut : now < b
  · rw [if_pos hfut]
    constructor
    · intro h; exact absurd h h1
    · rintro ⟨h, _⟩; exact absurd hfut h
  · rw [if_neg hfut]
    by_cases hage : ageByGetters tz now b < 13
    · rw [if_pos hage]
      constructor
      · intro h; exact absurd h h2
      · rintro ⟨_, h⟩; omega
    · rw [if_neg hage]
      constructor
      · intro _; exact ⟨hfut, by omega⟩
      · intro _; rfl

theorem age_ge_13_iff (tz : TimeZone) (now b : Int) :
    13 ≤ ageByGetters tz now b ↔ lexLe (plus13 (localDate tz b)) (localDate tz now) := by
  unfold ageByGetters gettersMonthDayPrecedes lexLe plus13 localDate
  dsimp only
  generalize YearFromTime (LocalTime tz now) = yn
  generalize YearFromTime (LocalTime tz b) = yb
  generalize MonthFromTime (LocalTime tz now) = mn
  generalize MonthFromTime (LocalTime tz b) = mb
  generalize DateFromTime (LocalTime tz now) = dn
  generalize DateFromTime (LocalTime tz b) = db
  have key : ((decide (mn < mb) || (decide (mn = mb) && decide (dn < db))) = true) ↔
      (mn < mb ∨ (mn = mb ∧ dn < db)) := by
    simp
  by_cases hp : mn < mb ∨ (mn = mb ∧ dn < db)
  · rw [if_pos (key.2 hp)]
    omega
  · rw [if_neg (fun h => hp (key.1 h))]
    omega

/-- Thirteen calendar years lie between the two dates, so the earlier one is
not in the future of the later one. -/
theorem not_future_of_lexLe (tz : TimeZone) (now b : Int) (htz : offsetsUnderADay tz)
    (h : lexLe (plus13 (localDate tz b)) (localDate tz now)) : ¬ now < b := by
  have hy : YearFromTime (LocalTime tz b) + 13 ≤ YearFromTime (LocalTime tz now) := by
    unfold lexLe plus13 localDate at h
    dsimp only at h
    omega
  obtain ⟨hn1, _⟩ := yearFromDay_spec (Day (LocalTime tz now))
  obtain ⟨_, hb2⟩ := yearFromDay_spec (Day (LocalTime tz b))
  have h12 := DayFromYear_add_le (yearFromDay (Day (LocalTime tz b)) + 1) 12
  have hmono := DayFromYear_mono (show yearFromDay (Day (LocalTime tz b)) + 1 + (12 : Nat) ≤
    yearFromDay (Day (LocalTime tz now)) by
      unfold YearFromTime at hy
      push_cast
      omega)
  have hdays : Day (LocalTime tz b) + 4380 < Day (LocalTime tz now) := by
    push_cast at h12 hmono
    omega
  obtain ⟨hb3, hb4⟩ := htz b
  obtain ⟨hn3, hn4⟩ := htz now
  unfold Day LocalTime msPerDay at hdays
  unfold msPerDay at hb3 hb4 hn3 hn4
  omega

/-- Of two midnights UTC the earlier one falls on an earlier or equal local day. -/
theorem Day_LocalTime_mono (tz : TimeZone) (htz : offsetsUnderADay tz) (b1 b2 k1 k2 : Int)
    (h1 : b1 = k1 * msPerDay) (h2 : b2 = k2 * msPerDay) (h : b1 ≤ b2) :
    Day (LocalTime tz b1) ≤ Day (LocalTime tz b2) := by
  by_cases heq : b1 = b2
  · rw [heq]
  · obtain ⟨ha1, ha2⟩ := htz b1
    obtain ⟨hc1, hc2⟩ := htz b2
    unfold Day LocalTime msPerDay
    unfold msPerDay at h1 h2 ha1 ha2 hc1 hc2
    omega

theorem lexLe_trans {a b c : Int × Int × Int} (h1 : lexLe a b) (h2 : lexLe b c) :
    lexLe a c := by
  unfold lexLe at *
  omega

theorem lexLe_plus13 {a b : Int × Int × Int} (h : lexLe a b) :
    lexLe (plus13 a) (plus13 b) := by
  unfold lexLe plus13 at *
  dsimp only
  omega

/-- What the script's checks decide, in terms of the dates its local getters
read: where the zone's offsets stay under a day, a value read as the time value
`b` is accepted exactly when the (year, month, day) the getters read from `b`,
moved on by 13 years, is lexicographically at most the one they read from
`now`; and of two values read as midnights UTC, the earlier is accepted when
the later is.  (West of UTC the getters read the day before the date the value
names.) -/
theorem validateBirth_accepts_by_getters (newDate : JSString → Date) (tz : TimeZone)
    (now : Int) (htz : offsetsUnderADay tz) :
    (∀ (value : JSString) (b : Int), value ≠ [] → newDate value = some b →
      (validateBirth newDate tz now value = str "" ↔
        lexLe (plus13 (localDate tz b)) (localDate tz now))) ∧
    (∀ (value value2 : JSString) (k k2 : Int), value ≠ [] → value2 ≠ [] →
      newDate value = some (k * msPerDay) → newDate value2 = some (k2 * msPerDay) → k2 ≤ k →
      validateBirth newDate tz now value = str "" →
      validateBirth newDate tz now value2 = str "") := by
  have hiff : ∀ (value : JSString) (b : Int), value ≠ [] → newDate value = some b →
      (validateBirth newDate tz now value = str "" ↔
        lexLe (plus13 (localDate tz b)) (localDate tz now)) := by
    intro value b hne hb
    rw [validateBirth_accepts_iff newDate tz now value b hne hb, age_ge_13_iff]
    constructor
    · exact fun h => h.2
    · exact fun h => ⟨not_future_of_lexLe tz now b htz h, h⟩
  refine ⟨hiff, ?_⟩
  intro value value2 k k2 hne hne2 hb hb2 hle hacc
  rw [hiff value2 _ hne2 hb2]
  have hlex := (hiff value _ hne hb).1 hacc
  have hle2 : k2 * msPerDay ≤ k * msPerDay := by
    unfold msPerDay
    omega
  have hday := Day_LocalTime_mono tz htz (k2 * msPerDay) (k * msPerDay) k2 k rfl rfl hle2
  exact lexLe_trans (lexLe_plus13 (ymd_mono _ _ hday)) hlex

/-! ## The birth date rule where local time is behind UTC -/

/-- C9, on the code: at noon of 14 June 2025 where local time is five hours
behind UTC (the date is 14 June 2025 in UTC too), the birth value "2012-06-15"
names 15 June 2012, which is not after the current instant, and the age on that
birth date is 12; yet `validateBirth` returns the empty string instead of "You
must be at least 13 years old.", whatever engine reads the date-only value. -/
theorem validateBirth_age_rule_west_of_utc (newDate : JSString → Date)
    (h : ReadsDateOnly newDate) :
    selectedDate (str "2012-06-15") = some (2012, 6, 15) ∧
    calendarDate (LocalTime (fun _ => -18000000) 1749920400000) = (2025, 6, 14) ∧
    calendarDate 1749920400000 = (2025, 6, 14) ∧
    ¬ ((1749920400000 : Int) < utcMidnight 2012 6 15) ∧
    ageOnDate (2025, 6, 14) (2012, 6, 15) = 12 ∧
    validateBirth newDate (fun _ => -18000000) 1749920400000 (str "2012-06-15") = str "" := by
  refine ⟨by decide, by decide, by decide, by decide, by decide, ?_⟩
  rw [validateBirth_of_date newDate _ _ _ _ (by decide) (h _ 2012 6 15 (by decide))]
  decide

theorem validateBirth_age_rule_west_of_utc_witness :
    selectedDate (str "2012-06-15") = some (2012, 6, 15) ∧
    calendarDate (LocalTime (fun _ => -18000000) 1749920400000) = (2025, 6, 14) ∧
    calendarDate 1749920400000 = (2025, 6, 14) ∧
    ¬ ((1749920400000 : Int) < utcMidnight 2012 6 15) ∧
    ageOnDate (2025, 6, 14) (2012, 6, 15) = 12 ∧
    validateBirth isoDateOnly (fun _ => -18000000) 1749920400000 (str "2012-06-15") = str "" :=
  validateBirth_age_rule_west_of_utc isoDateOnly isoDateOnly_reads

/-- C10, on the code: where local time is five hours behind UTC, at noon of
14 June 2025, both the birth date 2012-06-14 (13 years to the day) and the
birth date 2012-06-15 (one day short of 13 years) are accepted, whatever engine
reads the date-only values; the same instant and value read in UTC give "You
must be at least 13 years old.". -/
theorem validateBirth_day_short_west_of_utc (newDate : JSString → Date)
    (h : ReadsDateOnly newDate) :
    YearFromTime (LocalTime (fun _ => -18000000) 1749920400000) = 2025 ∧
    MonthFromTime (LocalTime (fun _ => -18000000) 1749920400000) = 5 ∧
    DateFromTime (LocalTime (fun _ => -18000000) 1749920400000) = 14 ∧
    HourFromTime (LocalTime (fun _ => -18000000) 1749920400000) = 12 ∧
    validateBirth newDate (fun _ => -18000000) 1749920400000 (str "2012-06-14") = str "" ∧
    validateBirth newDate (fun _ => -18000000) 1749920400000 (str "2012-06-15") = str "" ∧
    validateBirth newDate (fun _ => 0) 1749920400000 (str "2012-06-15") =
      str "You must be at least 13 years old." := by
  refine ⟨by decide, by decide, by decide, by decide, ?_, ?_, ?_⟩
  · rw [validateBirth_of_date newDate _ _ _ _ (by decide) (h _ 2012 6 14 (by decide))]
    decide
  · rw [validateBirth_of_date newDate _ _ _ _ (by decide) (h _ 2012 6 15 (by decide))]
    decide
  · rw [validateBirth_of_date newDate _ _ _ _ (by decide) (h _ 2012 6 15 (by decide))]
    decide

theorem validateBirth_day_short_west_of_utc_witness :
    YearFromTime (LocalTime (fun _ => -18000000) 1749920400000) = 2025 ∧
    MonthFromTime (LocalTime (fun _ => -18000000) 1749920400000) = 5 ∧
    DateFromTime (LocalTime (fun _ => -18000000) 1749920400000) = 14 ∧
    HourFromTime (LocalTime (fun _ => -18000000) 1749920400000) = 12 ∧
    validateBirth isoDateOnly (fun _ => -18000000) 1749920400000 (str "2012-06-14") = str "" ∧
    validateBirth isoDateOnly (fun _ => -18000000) 1749920400000 (str "2012-06-15") = str "" ∧
    validateBirth isoDateOnly (fun _ => 0) 1749920400000 (str "2012-06-15") =
      str "You must be at least 13 years old." :=
  validateBirth_day_short_west_of_utc isoDateOnly isoDateOnly_reads

/-- C16, on the code: at noon of 14 June 2025 where local time is five hours
behind UTC, the birth value "2012-06-15" is accepted although its date moved on
by 13 years, 15 June 2025, is after the current date, whatever engine reads
the date-only value. -/
theorem validateBirth_threshold_west_of_utc (newDate : JSString → Date)
    (h : ReadsDateOnly newDate) :
    selectedDate (str "2012-06-15") = some (2012, 6, 15) ∧
    calendarDate (LocalTime (fun _ => -18000000) 1749920400000) = (2025, 6, 14) ∧
    ¬ lexLe (plus13 (2012, 6, 15)) (2025, 6, 14) ∧
    validateBirth newDate (fun _ => -18000000) 1749920400000 (str "2012-06-15") = str "" := by
  refine ⟨by decide, by decide, by decide, ?_⟩
  rw [validateBirth_of_date newDate _ _ _ _ (by decide) (h _ 2012 6 15 (by decide))]
  decide

theorem validateBirth_threshold_west_of_utc_witness :
    selectedDate (str "2012-06-15") = some (2012, 6, 15) ∧
    calendarDate (LocalTime (fun _ => -18000000) 1749920400000) = (2025, 6, 14) ∧
    ¬ lexLe (plus13 (2012, 6, 15)) (2025, 6, 14) ∧
    validateBirth isoDateOnly (fun _ => -18000000) 1749920400000 (str "2012-06-15") = str "" :=
  validateBirth_threshold_west_of_utc isoDateOnly isoDateOnly_reads

/-! ## The timestamp text -/

theorem isDigit_digit (x : Nat) : isDigit (0x30 + x % 10) = true := by
  simp only [isDigit, Bool.and_eq_true, decide_eq_true_eq]
  omega

theorem digitsValue_two (a b : Nat) :
    digitsValue [0x30 + a % 10, 0x30 + b % 10] = some (10 * (a % 10) + b % 10) := by
  simp [digitsValue, isDigit_digit]

theorem digitsValue_four (a b c d : Nat) :
    digitsValue [0x30 + a % 10, 0x30 + b % 10, 0x30 + c % 10, 0x30 + d % 10] =
      some (10 * (10 * (10 * (a % 10) + b % 10) + c % 10) + d % 10) := by
  simp [digitsValue, isDigit_digit]

theorem replaceFirst_digit (x : Nat) (rest : JSString) :
    replaceFirst 0x54 0x20 ((0x30 + x % 10) :: rest) =
      (0x30 + x % 10) :: replaceFirst 0x54 0x20 rest := by
  rw [replaceFirst, if_neg (by omega)]

theorem replaceFirst_hyphen (rest : JSString) :
    replaceFirst 0x54 0x20 (0x2D :: rest) = 0x2D :: replaceFirst 0x54 0x20 rest := by
  rw [replaceFirst, if_neg (by decide)]

theorem replaceFirst_T (rest : JSString) :
    replaceFirst 0x54 0x20 (0x54 :: rest) = 0x20 :: rest := by
  rw [replaceFirst, if_pos rfl]

theorem readTimestamp_render (y m d h n s ms : Nat) (hy : y ≤ 9999) (hm : m < 100)
    (hd : d < 100) (hh : h < 100) (hn : n < 100) (hs : s < 100) :
    (substring0 19 (replaceFirst 0x54 0x20
      (padDigits 4 y ++ str "-" ++ padDigits 2 m ++ str "-" ++ padDigits 2 d ++ str "T" ++
        padDigits 2 h ++ str ":" ++ padDigits 2 n ++ str ":" ++ padDigits 2 s ++ str "." ++
        padDigits 3 ms ++ str "Z"))).length = 19 ∧
    readTimestamp (substring0 19 (replaceFirst 0x54 0x20
      (padDigits 4 y ++ str "-" ++ padDigits 2 m ++ str "-" ++ padDigits 2 d ++ str "T" ++
        padDigits 2 h ++ str ":" ++ padDigits 2 n ++ str ":" ++ padDigits 2 s ++ str "." ++
        padDigits 3 ms ++ str "Z"))) =
      some ((y : Int), (m : Int), (d : Int), (h : Int), (n : Int), (s : Int)) := by
  have e1 : str "-" = [0x2D] := by decide
  have e2 : str "T" = [0x54] := by decide
  have e3 : str ":" = [0x3A] := by decide
  have e4 : str "." = [0x2E] := by decide
  have e5 : str "Z" = [0x5A] := by decide
  rw [e1, e2, e3, e4, e5]
  simp only [padDigits, List.nil_append, List.append_assoc, List.cons_append,
    replaceFirst_digit, replaceFirst_hyphen, replaceFirst_T, substring0, List.take_succ_cons,
    List.take_zero]
  refine ⟨rfl, ?_⟩
  simp only [readTimestamp, digitsValue_two, digitsValue_four]
  have hy2 : 10 * (10 * (10 * (y / 10 / 10 / 10 % 10) + y / 10 / 10 % 10) + y / 10 % 10) +
      y % 10 = y := by omega
  have f : ∀ x : Nat, x < 100 → 10 * (x / 10 % 10) + x % 10 = x := by
    intro x hx; omega
  rw [hy2, f m hm, f d hd, f h hh, f n hn, f s hs]

theorem time_fields_bounds (t : Int) :
    (0 ≤ HourFromTime t ∧ HourFromTime t < 24) ∧ (0 ≤ MinFromTime t ∧ MinFromTime t < 60) ∧
    (0 ≤ SecFromTime t ∧ SecFromTime t < 60) := by
  unfold HourFromTime MinFromTime SecFromTime
  omega

/-- C14, as the claim states it, fails at the first instant of the year 10000:
`toISOString` then writes the year with a sign and six digits, and the text is
"+010000-01-01 00:00", not of the form `YYYY-MM-DD HH:MM:SS`. -/
theorem timestampText_year_10000_counterexample :
    timestampText 253402300800000 = str "+010000-01-01 00:00" ∧
    readTimestamp (timestampText 253402300800000) = none := by
  decide

/-- C14 (amended): at every instant whose UTC year is within 0..9999,
`setTimestamp` writes a text of exactly 19 code units of the form
`YYYY-MM-DD HH:MM:SS` whose six numbers are the UTC year, month, day, hour,
minute and second of the instant (no "T", no fraction of a second, no zone
suffix). -/
theorem setTimestamp_text (t : Int) (p : Page)
    (hy : 0 ≤ YearFromTime t ∧ YearFromTime t ≤ 9999) :
    (setTimestamp t p).timestamp = timestampText t ∧
    (timestampText t).length = 19 ∧
    readTimestamp (timestampText t) =
      some (YearFromTime t, MonthFromTime t + 1, DateFromTime t, HourFromTime t,
        MinFromTime t, SecFromTime t) := by
  refine ⟨by simp only [setTimestamp], ?_⟩
  obtain ⟨hm1, hm2⟩ := MonthFromTime_bounds t
  obtain ⟨hd1, hd2⟩ := DateFromTime_bounds t
  obtain ⟨⟨hh1, hh2⟩, ⟨hn1, hn2⟩, ⟨hs1, hs2⟩⟩ := time_fields_bounds t
  have key := readTimestamp_render (YearFromTime t).toNat (MonthFromTime t + 1).toNat
    (DateFromTime t).toNat (HourFromTime t).toNat (MinFromTime t).toNat (SecFromTime t).toNat
    (msFromTime t).toNat (by omega) (by omega) (by omega) (by omega) (by omega) (by omega)
  rw [Int.toNat_of_nonneg hy.1, Int.toNat_of_nonneg (show 0 ≤ MonthFromTime t + 1 by omega),
    Int.toNat_of_nonneg (show 0 ≤ DateFromTime t by omega), Int.toNat_of_nonneg hh1,
    Int.toNat_of_nonneg hn1, Int.toNat_of_nonneg hs1] at key
  unfold timestampText toISOString
  dsimp only
  rw [if_pos hy]
  exact key

theorem setTimestamp_text_witness :
    (setTimestamp 1749920400123 samplePage).timestamp = timestampText 1749920400123 ∧
    (timestampText 1749920400123).length = 19 ∧
    readTimestamp (timestampText 1749920400123) =
      some (YearFromTime 1749920400123, MonthFromTime 1749920400123 + 1,
        DateFromTime 1749920400123, HourFromTime 1749920400123,
        MinFromTime 1749920400123, SecFromTime 1749920400123) :=
  setTimestamp_text 1749920400123 samplePage (by decide)

end TaskG
